import Mathlib

/-!
Verification development for the PubMed/OpenAlex paper-harvesting pipeline.

Each Python function that a claim refers to is shallowly embedded as an
executable Lean definition.  External services (NCBI Entrez, OpenAlex, the
SQLite engine's success/failure of a commit) are modelled as explicit oracle
parameters; everything else follows the source line by line.
-/

namespace DownloadAgent

/-! ## Python string primitives used by the sources -/

/-- Characters Python `str.split()` / `str.strip()` treat as whitespace. -/
def pyWhitespace : List Char := [' ', '\t', '\n', '\r', '\x0b', '\x0c']

def isPySpace (c : Char) : Bool := pyWhitespace.contains c

/-- Python `s.strip()` on a character list. -/
def stripChars (cs : List Char) : List Char :=
  ((cs.dropWhile isPySpace).reverse.dropWhile isPySpace).reverse

/-- Python `s.strip()`. -/
def pyStrip (s : String) : String := ⟨stripChars s.toList⟩

/-- Helper for `splitWsChars`: `tok` is the (reversed) token being read. -/
def splitWsAux : List Char → List Char → List (List Char)
  | [], tok => if tok.isEmpty then [] else [tok.reverse]
  | c :: cs, tok =>
    if isPySpace c then
      if tok.isEmpty then splitWsAux cs [] else tok.reverse :: splitWsAux cs []
    else splitWsAux cs (c :: tok)

/-- Python `s.split()` with no separator: split on runs of whitespace,
dropping leading and trailing whitespace. -/
def splitWsChars (cs : List Char) : List (List Char) := splitWsAux cs []

/-- Python `s.split()`. -/
def pySplit (s : String) : List String := (splitWsChars s.toList).map (fun cs => ⟨cs⟩)

/-- The ASCII upper-to-lower character table. -/
def asciiLowerTable : List (Char × Char) :=
  [('A', 'a'), ('B', 'b'), ('C', 'c'), ('D', 'd'), ('E', 'e'), ('F', 'f'),
   ('G', 'g'), ('H', 'h'), ('I', 'i'), ('J', 'j'), ('K', 'k'), ('L', 'l'),
   ('M', 'm'), ('N', 'n'), ('O', 'o'), ('P', 'p'), ('Q', 'q'), ('R', 'r'),
   ('S', 's'), ('T', 't'), ('U', 'u'), ('V', 'v'), ('W', 'w'), ('X', 'x'),
   ('Y', 'y'), ('Z', 'z')]

/-- ASCII lower-casing of one character (Python `str.lower` restricted to the
ASCII range, which is all the sources feed it). -/
def lowerChar (c : Char) : Char :=
  ((asciiLowerTable.find? (fun p => p.1 = c)).map (fun p => p.2)).getD c

/-- Python `s.lower()`. -/
def lowerStr (s : String) : String := ⟨s.toList.map lowerChar⟩

/-- Does `pat` occur at the start of `l`? -/
def headMatches : List Char → List Char → Bool
  | [], _ => true
  | _ :: _, [] => false
  | a :: as, b :: bs => a = b && headMatches as bs

/-- Python `pat in s` (substring containment) on character lists. -/
def containsSubChars (pat : List Char) : List Char → Bool
  | [] => headMatches pat []
  | c :: cs => headMatches pat (c :: cs) || containsSubChars pat cs

/-- Python `pat in s` (substring containment). -/
def containsSub (s pat : String) : Bool := containsSubChars pat.toList s.toList

/-- Dictionary lookup on an association list (Python `d[k]` / `d.get(k)`;
keys are unique in a dict, so first-match lookup is exact). -/
def alistGet {β : Type} : List (String × β) → String → Option β
  | [], _ => none
  | e :: es, k => if e.1 = k then some e.2 else alistGet es k

/-! ## `has_meaningful_content` (src/src/pubmed_extractor.py, lines 714-798) -/

namespace PubmedExtractor

/-- Boilerplate/metadata section names (source constant `BOILERPLATE_SECTIONS`). -/
def BOILERPLATE_SECTIONS : List String :=
  ["conflict of interest", "conflicts of interest", "competing interests",
   "acknowledgment", "acknowledgments", "acknowledgement", "acknowledgements",
   "funding", "financial disclosure", "author contributions",
   "data availability", "supplementary material", "supporting information",
   "abbreviations", "keywords", "copyright", "license",
   "author information", "correspondence", "ethics", "consent"]

/-- Meaningful section names (source constant `MEANINGFUL_SECTIONS`). -/
def MEANINGFUL_SECTIONS : List String :=
  ["introduction", "background", "methods", "methodology", "materials",
   "results", "discussion", "conclusion", "analysis", "findings",
   "literature review", "theory", "hypothesis", "experiment",
   "case study", "data", "implementation", "evaluation"]

/-- `'abstract' in section_lower`. -/
def isAbstractSection (name : String) : Bool := containsSub (lowerStr name) "abstract"

/-- `any(bp in section_lower for bp in BOILERPLATE_SECTIONS)`. -/
def isBoilerplateSection (name : String) : Bool :=
  BOILERPLATE_SECTIONS.any (fun bp => containsSub (lowerStr name) bp)

/-- `any(ms in section_lower for ms in MEANINGFUL_SECTIONS)`. -/
def isMeaningfulSection (name : String) : Bool :=
  MEANINGFUL_SECTIONS.any (fun ms => containsSub (lowerStr name) ms)

/-- The three counters accumulated by the classification loop of
`has_meaningful_content`. -/
structure SectionTally where
  meaningful : Nat
  boilerplate : Nat
  substantial : Nat
deriving Repr, DecidableEq

/-- One iteration of the `for section_name, section_content in sections_dict.items()`
loop of `has_meaningful_content`. -/
def tallyStep (t : SectionTally) (sec : String × String) : SectionTally :=
  let contentLength := (pyStrip sec.2).length
  if isAbstractSection sec.1 then t
  else if isBoilerplateSection sec.1 then { t with boilerplate := t.boilerplate + 1 }
  else
    let t1 := if isMeaningfulSection sec.1 then { t with meaningful := t.meaningful + 1 } else t
    if 500 < contentLength then { t1 with substantial := t1.substantial + 1 } else t1

def sectionTally (sections : List (String × String)) : SectionTally :=
  sections.foldl tallyStep ⟨0, 0, 0⟩

/-- `has_meaningful_content(sections_dict, full_text)`.  A section map is an
ordered association list (Python dict). -/
def has_meaningful_content (sections : List (String × String)) (full_text : String) : Bool :=
  if sections.isEmpty then decide (2000 < (pyStrip full_text).length)
  else
    let t := sectionTally sections
    if 1 ≤ t.meaningful ∧ 1 ≤ t.substantial then true
    else if 3 ≤ t.substantial ∧ t.boilerplate < t.substantial then true
    else if 0 < t.boilerplate ∧ t.meaningful = 0 ∧ t.substantial < 3 then false
    else if t.substantial < 2 then false
    else decide (3000 < (pyStrip full_text).length)

/-! Spec-side predicate for claim C1, written from the spec's words:
accept iff (a) at least one substantive section exists with length > 500, or
(b) at least three sections of any classification each exceed 500 characters
and boilerplate sections are a minority of those, or (c) there are no sections
at all but the flat text exceeds 2000 characters. -/

def nonAbstractSections (sections : List (String × String)) : List (String × String) :=
  sections.filter (fun s => !isAbstractSection s.1)

/-- A section is *substantive* in the spec's classification: it carries a
meaningful name and is not boilerplate (boilerplate takes precedence, as in
the classification loop). -/
def claimSubstantive (name : String) : Bool :=
  !isBoilerplateSection name && isMeaningfulSection name

/-- Claim C1's acceptance condition, formalised from the spec sentence. -/
def claimC1Accept (sections : List (String × String)) (full_text : String) : Bool :=
  let na := nonAbstractSections sections
  let long := na.filter (fun s => decide (500 < (pyStrip s.2).length))
  (na.any (fun s => claimSubstantive s.1 && decide (500 < (pyStrip s.2).length)))
  || (decide (3 ≤ long.length) &&
      decide (2 * (long.filter (fun s => isBoilerplateSection s.1)).length < long.length))
  || (sections.isEmpty && decide (2000 < (pyStrip full_text).length))

/-- Counterexample input: a short "Introduction" plus a long unclassified
"Patients" section. -/
def c1Sections : List (String × String) :=
  [("Introduction", "short"), ("Patients", String.mk (List.replicate 501 'y'))]

/-- Counts used to state the corrected form of claim C1. -/
def meaningfulCount (sections : List (String × String)) : Nat :=
  (nonAbstractSections sections).countP
    (fun s => !isBoilerplateSection s.1 && isMeaningfulSection s.1)

def boilerplateCount (sections : List (String × String)) : Nat :=
  (nonAbstractSections sections).countP (fun s => isBoilerplateSection s.1)

def substantialCount (sections : List (String × String)) : Nat :=
  (nonAbstractSections sections).countP
    (fun s => !isBoilerplateSection s.1 && decide (500 < (pyStrip s.2).length))

end PubmedExtractor

/-! ## QueryCache (src/src/query_cache.py) -/

namespace QueryCacheMod

/-- Whitespace normalisation of a query: `' '.join(query.split())`. -/
def normalizeQuery (q : String) : String := String.intercalate " " (pySplit q)

/-- Cache key.  The source hashes the normalised query with MD5
(`hashlib.md5(normalized.encode()).hexdigest()`); the hash is modelled as the
normalised text itself, i.e. as a stable injective key function. -/
def queryKey (q : String) : String := normalizeQuery q

/-- The in-memory cache dictionary: key → cached PMID list.  The source stores
alongside the PMIDs a truncated copy of the query text, a count and a date;
those extra entry fields are never read by `get` and are omitted. -/
structure QueryCache where
  entries : List (String × List String)

/-- `QueryCache.get`: return the entry's `pmids` when the key is present. -/
def QueryCache.get (c : QueryCache) (query : String) : Option (List String) :=
  (c.entries.find? (fun e => e.1 = queryKey query)).map (fun e => e.2)

/-- `QueryCache.set`: `self.cache[query_hash] = {...}` (unconditional
dictionary overwrite, then persisted). -/
def QueryCache.set (c : QueryCache) (query : String) (pmids : List String) : QueryCache :=
  ⟨(queryKey query, pmids) :: c.entries.filter (fun e => e.1 ≠ queryKey query)⟩

end QueryCacheMod

/-! ## `safe_ncbi_call` (src/src/pubmed_extractor.py, lines 29-66) -/

namespace NcbiGateway

/-- `MAX_RETRIES` from src/src/config.py. -/
def MAX_RETRIES : Nat := 5

/-- Outcome of one underlying Entrez call attempt: either a value or a raised
exception carrying its message text. -/
inductive CallResult (α : Type) where
  | ok : α → CallResult α
  | raised : String → CallResult α
deriving Repr, DecidableEq

/-- `'429' in error_str or 'Too Many Requests' in error_str`. -/
def isRateLimitErr (msg : String) : Bool :=
  containsSub msg "429" || containsSub msg "Too Many Requests"

/-- The retry loop of `safe_ncbi_call`; `attempt` is the loop index and the
fuel is the number of remaining iterations of `range(MAX_RETRIES)`.  Credential
rotation and the backoff sleeps do not affect the returned value and are not
modelled.  In every exception branch the loop continues (or falls through to
an implicit/explicit `return None` on the last attempt). -/
def safeNcbiAux {α : Type} (f : Nat → CallResult α) : Nat → Nat → Option α
  | _, 0 => none
  | attempt, fuel + 1 =>
    match f attempt with
    | .ok a => some a
    | .raised _ => safeNcbiAux f (attempt + 1) fuel

/-- `safe_ncbi_call(func, ...)`: the attempt-indexed oracle `f` gives the
outcome of the wrapped call on each attempt. -/
def safe_ncbi_call {α : Type} (f : Nat → CallResult α) : Option α :=
  safeNcbiAux f 0 MAX_RETRIES

/-- An operation that raises a server error on every attempt. -/
def alwaysRaise : Nat → CallResult (List String) := fun _ => .raised "HTTP 500"

end NcbiGateway

/-! ## PaperDatabase (src/src/database.py) -/

namespace Database

/-- A JSON value as it appears inside the `primary_topic` dictionary: the
source reads string-valued keys and nested one-level dictionaries. -/
inductive JVal where
  | str : String → JVal
  | jnull : JVal
  | obj : List (String × JVal) → JVal

/-- `d.get(k)` returning a string value. -/
def jGetStr (es : List (String × JVal)) (k : String) : Option String :=
  match es.find? (fun e => e.1 = k) with
  | some (_, .str s) => some s
  | _ => none

/-- `d.get(k)` returning a nested dictionary. -/
def jGetObj (es : List (String × JVal)) (k : String) : Option (List (String × JVal)) :=
  match es.find? (fun e => e.1 = k) with
  | some (_, .obj o) => some o
  | _ => none

/-- `pt.get(k, dict()).get('display_name') if 'k' in pt else None`. -/
def topicPart (pt : List (String × JVal)) (k : String) : Option String :=
  match jGetObj pt k with
  | some o => jGetStr o "display_name"
  | none => none

/-- `PaperMetadata` (src/src/models.py).  Python `float` columns
(`citation_normalized_percentile`, `fwci`) only pass through the store
untouched and are modelled as integers. -/
structure PaperMetadata where
  pmid : String
  pmcid : Option String := none
  doi : Option String := none
  title : Option String := none
  abstract : Option String := none
  full_text : Option String := none
  full_text_sections : Option (List (String × String)) := some []
  mesh_terms : List String := []
  keywords : List String := []
  authors : List String := []
  year : Option String := none
  date_published : Option String := none
  journal : Option String := none
  is_full_text_pmc : Bool := false
  oa_url : Option String := none
  primary_topic : Option (List (String × JVal)) := none
  citation_normalized_percentile : Option Int := none
  cited_by_count : Option Int := none
  fwci : Option Int := none
  collection_date : String := ""
  openalex_retrieved : Bool := false
  query_id : Option Int := none
  source : String := "PubMed"

/-- One row of the `papers` table, column for column.  JSON-text columns are
modelled by the parsed value they serialise (`json.dumps`/`json.loads` round-trip). -/
structure Row where
  pmid : String
  pmcid : Option String
  doi : Option String
  title : Option String
  abstract : Option String
  full_text : Option String
  full_text_sections : Option (List (String × String))
  mesh_terms : List String
  keywords : List String
  authors : List String
  year : Option String
  date_published : Option String
  journal : Option String
  is_full_text_pmc : Int
  oa_url : Option String
  primary_topic : Option (List (String × JVal))
  topic_name : Option String
  topic_subfield : Option String
  topic_field : Option String
  topic_domain : Option String
  citation_normalized_percentile : Option Int
  cited_by_count : Option Int
  fwci : Option Int
  collection_date : String
  openalex_retrieved : Int
  parsing_status : Option String
  query_id : Option Int
  embedding : Option String
  yake_keywords : Option String
  source : String

/-- Python truthiness of an optional string. -/
def optStrTruthy : Option String → Bool
  | none => false
  | some s => s ≠ ""

/-- Python falsiness of an optional string (`not value`). -/
def optFalsy : Option String → Bool
  | none => true
  | some s => s = ""

/-- Python truthiness of an optional section dictionary. -/
def sectionsTruthy : Option (List (String × String)) → Bool
  | none => false
  | some l => !l.isEmpty

/-- Python truthiness of the optional `primary_topic` dictionary. -/
def topicTruthy : Option (List (String × JVal)) → Bool
  | none => false
  | some l => !l.isEmpty

/-- The tuple of column values bound by `insert_paper`'s
`INSERT OR REPLACE INTO papers (...) VALUES (...)`. -/
def metaToRow (m : PaperMetadata) : Row where
  pmid := m.pmid
  pmcid := m.pmcid
  doi := m.doi
  title := m.title
  abstract := m.abstract
  full_text := m.full_text
  full_text_sections :=
    if sectionsTruthy m.full_text_sections then m.full_text_sections else none
  mesh_terms := m.mesh_terms
  keywords := m.keywords
  authors := m.authors
  year := m.year
  date_published := m.date_published
  journal := m.journal
  is_full_text_pmc := if m.is_full_text_pmc then 1 else 0
  oa_url := m.oa_url
  primary_topic := if topicTruthy m.primary_topic then m.primary_topic else none
  topic_name :=
    if topicTruthy m.primary_topic then jGetStr (m.primary_topic.getD []) "display_name"
    else none
  topic_subfield :=
    if topicTruthy m.primary_topic then topicPart (m.primary_topic.getD []) "subfield"
    else none
  topic_field :=
    if topicTruthy m.primary_topic then topicPart (m.primary_topic.getD []) "field"
    else none
  topic_domain :=
    if topicTruthy m.primary_topic then topicPart (m.primary_topic.getD []) "domain"
    else none
  citation_normalized_percentile := m.citation_normalized_percentile
  cited_by_count := m.cited_by_count
  fwci := m.fwci
  collection_date := m.collection_date
  openalex_retrieved := if m.openalex_retrieved then 1 else 0
  parsing_status := none
  query_id := m.query_id
  embedding := none
  yake_keywords := none
  source := m.source

/-- The `papers` table, in rowid order. -/
abbrev PaperDB := List Row

/-- SQLite `INSERT OR REPLACE` keyed on the `pmid` primary key: the
conflicting row (if any) is deleted and the new row inserted. -/
def upsertRow (db : PaperDB) (r : Row) : PaperDB :=
  db.filter (fun x => x.pmid ≠ r.pmid) ++ [r]

/-- `insert_paper`.  `commitOk` is the environment oracle for whether the
SQLite execute/commit raises; on an exception the handler returns `False`
and the single-statement transaction leaves the table unchanged. -/
def insert_paper (db : PaperDB) (m : PaperMetadata) (commitOk : Bool) :
    Bool × PaperDB :=
  if commitOk then (true, upsertRow db (metaToRow m)) else (false, db)

/-- `_row_to_metadata`. -/
def row_to_metadata (r : Row) : PaperMetadata where
  pmid := r.pmid
  pmcid := r.pmcid
  doi := r.doi
  title := r.title
  abstract := r.abstract
  full_text := r.full_text
  full_text_sections := some (r.full_text_sections.getD [])
  mesh_terms := r.mesh_terms
  keywords := r.keywords
  authors := r.authors
  year := r.year
  date_published := r.date_published
  journal := r.journal
  is_full_text_pmc := r.is_full_text_pmc ≠ 0
  oa_url := r.oa_url
  primary_topic :=
    match r.primary_topic with
    | some es => some es
    | none =>
      match r.topic_name with
      | some tn =>
        if tn ≠ "" then
          some ([("display_name", JVal.str tn)]
            ++ (match r.topic_subfield with
                | some s => if s ≠ "" then [("subfield", JVal.obj [("display_name", JVal.str s)])] else []
                | none => [])
            ++ (match r.topic_field with
                | some s => if s ≠ "" then [("field", JVal.obj [("display_name", JVal.str s)])] else []
                | none => [])
            ++ (match r.topic_domain with
                | some s => if s ≠ "" then [("domain", JVal.obj [("display_name", JVal.str s)])] else []
                | none => []))
        else none
      | none => none
  citation_normalized_percentile := r.citation_normalized_percentile
  cited_by_count := r.cited_by_count
  fwci := r.fwci
  collection_date := r.collection_date
  openalex_retrieved := r.openalex_retrieved ≠ 0
  query_id := r.query_id
  source := r.source

/-- `get_paper(pmid)`: `SELECT * FROM papers WHERE pmid = ?` (first row). -/
def get_paper (db : PaperDB) (pmid : String) : Option PaperMetadata :=
  if pmid = "" then none
  else (db.find? (fun r => r.pmid = pmid)).map row_to_metadata

/-- `get_paper_by_doi(doi)`: `SELECT * FROM papers WHERE doi = ?` (first row). -/
def get_paper_by_doi (db : PaperDB) (doi : String) : Option PaperMetadata :=
  if doi = "" then none
  else (db.find? (fun r => r.doi = some doi)).map row_to_metadata

/-- The boolean computed by `paper_needs_enrichment`:
`not abstract or not full_text or abstract.strip() == "" or full_text is None`. -/
def needsFlag (p : PaperMetadata) : Bool :=
  optFalsy p.abstract || optFalsy p.full_text
    || decide (pyStrip (p.abstract.getD "") = "") || decide (p.full_text = none)

/-- `paper_needs_enrichment(identifier)`. -/
def paper_needs_enrichment (db : PaperDB) (identifier : String) :
    Bool × Option PaperMetadata :=
  let paper0 := get_paper db identifier
  let paper :=
    match paper0 with
    | some p => some p
    | none => if identifier ≠ "" then get_paper_by_doi db identifier else none
  match paper with
  | none => (false, none)
  | some p => (needsFlag p, some p)

/-- How a stored record reads back: the section map is normalised to the
empty map when absent/empty, and the topic taxonomy is normalised to absent
when absent/empty; every other field is returned unchanged. -/
def normalizeRead (m : PaperMetadata) : PaperMetadata :=
  { m with
    full_text_sections :=
      some (if sectionsTruthy m.full_text_sections then m.full_text_sections.getD [] else []),
    primary_topic := if topicTruthy m.primary_topic then m.primary_topic else none }

/-- The record lookup performed at the top of `paper_needs_enrichment`:
by PMID first, then by DOI. -/
def lookupPaper (db : PaperDB) (identifier : String) : Option PaperMetadata :=
  match get_paper db identifier with
  | some p => some p
  | none => if identifier ≠ "" then get_paper_by_doi db identifier else none

/-- Spec-side needs-enrichment condition for claim C7: abstract empty OR the
full text (in both its flat and sectioned representations) empty. -/
def claimC7Needs (p : PaperMetadata) : Bool :=
  optFalsy p.abstract || (optFalsy p.full_text && (p.full_text_sections.getD []).isEmpty)

/-- C7 counterexample record: abstract present, flat `full_text` empty, but a
non-empty section map. -/
def c7Meta : PaperMetadata :=
  { pmid := "1", abstract := some "An abstract.", full_text := some "",
    full_text_sections := some [("Introduction", "Some intro text.")] }

def c7DB : PaperDB := [metaToRow c7Meta]

/-- C10 counterexample record: a record whose primary identifier is the
empty string. -/
def c10Meta : PaperMetadata := { pmid := "", title := some "Untitled" }

/-- C10 witness record: a representative record with every kind of persisted
field populated. -/
def c10GoodMeta : PaperMetadata :=
  { pmid := "42", pmcid := some "PMC42", doi := some "10.1/x",
    title := some "A title", abstract := some "An abstract.",
    full_text := some "Body text.",
    full_text_sections := some [("Introduction", "Intro."), ("Methods", "How.")],
    mesh_terms := ["Aging"], keywords := ["senescence"], authors := ["Doe J"],
    year := some "2024", date_published := some "2024-01-01",
    journal := some "J Test", is_full_text_pmc := true,
    oa_url := some "https://example.org/paper.pdf",
    primary_topic := some [("display_name", JVal.str "Biology of Aging"),
      ("subfield", JVal.obj [("display_name", JVal.str "Gerontology")])],
    citation_normalized_percentile := some 99, cited_by_count := some 7,
    fwci := some 2, collection_date := "2024-02-02T00:00:00",
    openalex_retrieved := true, query_id := some 3, source := "PubMed" }

end Database

/-! ## `strategy_merge` (src/scripts/helper_scripts/resolve_doi_duplicates.py,
lines 157-231) -/

namespace ResolveDoiDuplicates

/-- A raw SQLite row as `dict(row)`: ordered column/value pairs.  Values are
modelled as nullable strings (the text/JSON-text columns the merge touches). -/
abbrev DRow := List (String × Option String)

/-- `merged_data[key]` / `row[key]` (None when the key is missing — the rows
of one table always share the schema, so the miss case never fires). -/
def dLookup (r : DRow) (k : String) : Option String :=
  (alistGet r k).getD none

/-- Python emptiness test used by the merge: `not v or v == ''`. -/
def valEmpty : Option String → Bool
  | none => true
  | some s => s = ""

/-- `merged_data[key] = value`. -/
def setVal (r : DRow) (k : String) (v : Option String) : DRow :=
  r.map (fun e => if e.1 = k then (k, v) else e)

/-- One step of the inner `for key, value in other.items()` loop:
skip `pmid`; fill the field only when the current value is empty and the
incoming one is not. -/
def mergeKV (merged : DRow) (k : String) (v : Option String) : DRow :=
  if k = "pmid" then merged
  else if valEmpty (dLookup merged k) && !valEmpty v then setVal merged k v
  else merged

/-- Merge the fields of one `other` row into `merged_data`. -/
def mergeFromRow (merged other : DRow) : DRow :=
  other.foldl (fun acc e => mergeKV acc e.1 e.2) merged

/-- The `merged_data` computed by `strategy_merge` for one duplicate-DOI
group, given the group's rows ordered as the source query returns them
(`ORDER BY collection_date DESC, pmid`): the first row is the retained
primary, the others are folded in; the surrounding SQL then updates the
primary row with this data and deletes the others. -/
def strategy_merge (papers : List DRow) : DRow :=
  match papers with
  | [] => []
  | primary :: others => others.foldl mergeFromRow primary

/-- Spec-side merge of one field for claim C8: keep the primary's value when
non-empty, otherwise prefer the longest non-empty value offered by the other
rows. -/
def claimMergeField (primary : DRow) (others : List DRow) (k : String) : Option String :=
  if !valEmpty (dLookup primary k) then dLookup primary k
  else
    let cands := ((others.map (fun r => dLookup r k)).filterMap id).filter (fun s => s ≠ "")
    match cands with
    | [] => dLookup primary k
    | c :: cs => some ((c :: cs).foldl (fun best s => if best.length < s.length then s else best) c)

/-- Counterexample group for claim C8: three rows sharing a DOI, ordered
most-recent first; the primary's abstract is empty, the second-oldest offers
a short abstract and the oldest a longer one. -/
def c8Primary : DRow := [("pmid", some "p1"), ("abstract", some ""), ("keywords", some "[]")]

def c8Other1 : DRow := [("pmid", some "p2"), ("abstract", some "short"), ("keywords", some "")]

def c8Other2 : DRow :=
  [("pmid", some "p3"), ("abstract", some "a considerably longer abstract"), ("keywords", none)]

def c8Group : List DRow := [c8Primary, c8Other1, c8Other2]

end ResolveDoiDuplicates

/-! ## `search_pubmed` / `_search_pubmed_with_date_splitting`
(src/src/pubmed_extractor.py, lines 69-284) -/

namespace PubmedSearch

/-- The Entrez `esearch` responses the search functions consume, as an
oracle: the count probe of the base query, the id pages of direct paging,
and the per-year / per-month counts and id lists of date splitting.  The
oracle models successful responses (`safe_ncbi_call` returning a handle). -/
structure EsearchOracle where
  totalCount : Nat
  pageIds : Nat → Nat → List String
  yearCount : Nat → Nat
  yearIds : Nat → List String
  monthIds : Nat → Nat → List String

/-- `all_pmids.update(ids)` on a Python set, modelled as an insertion-ordered
duplicate-free list. -/
def setUpdate (acc : List String) (ids : List String) : List String :=
  ids.foldl (fun a x => if x ∈ a then a else a ++ [x]) acc

/-- The `for year in range(current_year, 1949, -1)` loop of
`_search_pubmed_with_date_splitting`: zero-count years are skipped
(`continue`), a ≤10000 year is fetched whole, a larger year is split into
its 12 months, and the loop breaks once the accumulated set reaches
`target_count`. -/
def searchYears (o : EsearchOracle) (target : Nat) :
    List Nat → List String → List String
  | [], acc => acc
  | y :: ys, acc =>
    let c := o.yearCount y
    if c = 0 then searchYears o target ys acc
    else
      let acc2 :=
        if c ≤ 10000 then setUpdate acc (o.yearIds y)
        else (List.range 12).foldl (fun a m => setUpdate a (o.monthIds y (m + 1))) acc
      if target ≤ acc2.length then acc2 else searchYears o target ys acc2

/-- `range(current_year, 1949, -1)`. -/
def yearsList (currentYear : Nat) : List Nat :=
  (List.range (currentYear - 1949)).map (fun i => currentYear - i)

/-- `_search_pubmed_with_date_splitting(query, target_count)`; the final
`list(all_pmids)` is the accumulated duplicate-free list (caching the result
does not change it). -/
def search_pubmed_with_date_splitting (o : EsearchOracle) (currentYear target : Nat) :
    List String :=
  searchYears o target (yearsList currentYear) []

/-- `search_pubmed(query, max_results)`.  `cached` is the `QueryCache.get`
result (`none` on a cache miss). -/
def search_pubmed (o : EsearchOracle) (cached : Option (List String))
    (currentYear max_results : Nat) : List String :=
  match cached with
  | some pmids => if max_results < pmids.length then pmids.take max_results else pmids
  | none =>
    let total_count := o.totalCount
    let num := min total_count max_results
    if num = 0 then []
    else if 10000 < num then search_pubmed_with_date_splitting o currentYear num
    else
      (List.range ((num + 4999) / 5000)).foldl
        (fun acc b => acc ++ o.pageIds (b * 5000) (min 5000 (num - b * 5000))) []

/-- The concrete oracle of the C2 counterexample: the probe reports 10001
matches (past the window cap), but the year partitions only ever surface five
identifiers (the spec itself notes partition sums need not match the probe). -/
def c2Oracle : EsearchOracle where
  totalCount := 10001
  pageIds := fun _ _ => []
  yearCount := fun y => if y = 2025 then 5 else 0
  yearIds := fun y => if y = 2025 then ["11", "12", "13", "14", "15"] else []
  monthIds := fun _ _ => []

end PubmedSearch

/-! ## OpenAlex enrichment (src/src/openalex_extractor.py) -/

/-- Characters of `l` before the first occurrence of `pat`; all of `l` when
`pat` does not occur. -/
def beforeFirstOcc (pat : List Char) : List Char → List Char
  | [] => []
  | c :: cs => if headMatches pat (c :: cs) then [] else c :: beforeFirstOcc pat cs

/-- Python `s.split(pat)[-1]`: the part of `s` after the last occurrence of
`pat` (all of `s` when `pat` does not occur). -/
def afterLastSub (s pat : String) : String :=
  if containsSubChars pat.toList s.toList then
    ⟨(beforeFirstOcc pat.toList.reverse s.toList.reverse).reverse⟩
  else s

/-- Fuelled scanner for `removeAllSubChars` (the fuel is an upper bound on
the scanned length, so the zero-fuel branch is unreachable at the call site). -/
def removeAllFuel (pat : List Char) : Nat → List Char → List Char
  | _, [] => []
  | 0, l => l
  | fuel + 1, c :: cs =>
    if headMatches pat (c :: cs) ∧ pat ≠ [] then
      removeAllFuel pat fuel ((c :: cs).drop pat.length)
    else c :: removeAllFuel pat fuel cs

/-- Python `s.replace(pat, '')` for non-empty `pat`: remove every
(non-overlapping, left-to-right) occurrence. -/
def removeAllSubChars (pat : List Char) (l : List Char) : List Char :=
  removeAllFuel pat l.length l

/-- Fuelled worker for `chunksOf` (the fuel is an upper bound on the list
length; the zero-fuel branch is unreachable at the call site because the
chunk size is positive). -/
def chunksOfFuel {α : Type} (n : Nat) : Nat → List α → List (List α)
  | _, [] => []
  | 0, _ :: _ => []
  | fuel + 1, c :: cs => ((c :: cs).take n) :: chunksOfFuel n fuel ((c :: cs).drop n)

/-- `range(0, len(l), n)` chunking (`n > 0` at every call site). -/
def chunksOf {α : Type} (n : Nat) (l : List α) : List (List α) :=
  if n = 0 then [] else chunksOfFuel n l.length l

namespace OpenAlexExtractor

open Database

/-- `MAX_RETRIES` from src/src/config.py. -/
def MAX_RETRIES : Nat := 5

/-- The fields `enrich_with_openalex` / `batch_enrich_with_openalex` read out
of one OpenAlex work object.  `citation_normalized_percentile` is modelled
after the source's dict-value unwrapping; `open_access_oa_url = none` models
an absent/falsy `open_access` dict (the record's `oa_url` is then left
untouched), and likewise for `primary_topic`. -/
structure OAWork where
  doi : String
  cited_by_count : Option Int := none
  citation_normalized_percentile : Option Int := none
  fwci : Option Int := none
  open_access_oa_url : Option (Option String) := none
  primary_topic : Option (List (String × JVal)) := none

/-- Response of one individual `requests.get` on the works endpoint. -/
inductive IndivResp where
  | ok : OAWork → IndivResp
  | notFound : IndivResp
  | rateLimited : IndivResp
  | otherStatus : IndivResp
  | failed : IndivResp

/-- Response of one batched (OR-filter) works request. -/
inductive BatchResp where
  | ok : List OAWork → BatchResp
  | rateLimited : BatchResp
  | otherStatus : BatchResp
  | exn : BatchResp

/-- The OpenAlex service as oracles: `indiv` maps (cleaned DOI, attempt
index) to a response; `batch` maps a DOI batch to a response. -/
structure OAOracles where
  indiv : String → Nat → IndivResp
  batch : List String → BatchResp

/-- Copy the extracted OpenAlex fields onto the record and mark it
retrieved (the 200-status branch of either function). -/
def applyWork (m : PaperMetadata) (w : OAWork) : PaperMetadata :=
  { m with
    cited_by_count := w.cited_by_count,
    citation_normalized_percentile := w.citation_normalized_percentile,
    fwci := w.fwci,
    oa_url := match w.open_access_oa_url with
      | some u => u
      | none => m.oa_url,
    primary_topic := match w.primary_topic with
      | some pt => some pt
      | none => m.primary_topic,
    openalex_retrieved := true }

/-- `doi.split('doi.org/')[-1] if doi.startswith('http') else doi`. -/
def cleanDoi (d : String) : String :=
  if headMatches "http".toList d.toList then afterLastSub d "doi.org/" else d

/-- The dictionary key `batch_enrich_with_openalex` files a record under:
its cleaned, lower-cased DOI. -/
def oaKey (m : PaperMetadata) : String := lowerStr (cleanDoi (m.doi.getD ""))

/-- Truthiness of `metadata.doi`. -/
def doiTruthy (m : PaperMetadata) : Bool := optStrTruthy m.doi

/-- The cleaned DOI of a record (`metadata.doi` is truthy where this is used). -/
def cleanedDoi (m : PaperMetadata) : String := cleanDoi (m.doi.getD "")

/-- The retry loop of `enrich_with_openalex`: 200 applies the fields, 404
returns the record unchanged, 429/other-status/timeout/exception retry until
the attempts are exhausted and then return the record unchanged. -/
def enrichLoop (o : OAOracles) (d : String) (m : PaperMetadata) :
    Nat → Nat → PaperMetadata
  | _, 0 => m
  | attempt, fuel + 1 =>
    match o.indiv d attempt with
    | .ok w => applyWork m w
    | .notFound => m
    | .rateLimited =>
      if attempt < MAX_RETRIES - 1 then enrichLoop o d m (attempt + 1) fuel else m
    | .otherStatus =>
      if attempt < MAX_RETRIES - 1 then enrichLoop o d m (attempt + 1) fuel else m
    | .failed =>
      if attempt < MAX_RETRIES - 1 then enrichLoop o d m (attempt + 1) fuel else m

/-- `enrich_with_openalex(metadata)`. -/
def enrich_with_openalex (o : OAOracles) (m : PaperMetadata) : PaperMetadata :=
  if doiTruthy m then enrichLoop o (cleanedDoi m) m 0 MAX_RETRIES else m

/-- `doi_to_metadata[doi.lower()] = metadata` over `papers_with_doi`: a
Python dict keyed by the cleaned, lower-cased DOI — a later record with the
same key overwrites the earlier one in place. -/
def buildDoiMap (papers : List PaperMetadata) : List (String × PaperMetadata) :=
  papers.foldl
    (fun acc m =>
      let key := lowerStr (cleanedDoi m)
      if (alistGet acc key).isSome then
        acc.map (fun e => if e.1 = key then (key, m) else e)
      else acc ++ [(key, m)])
    []

/-- `work.get('doi', '').replace('https://doi.org/', '').lower()`. -/
def workKey (w : OAWork) : String :=
  lowerStr ⟨removeAllSubChars "https://doi.org/".toList w.doi.toList⟩

/-- The `for work in results` matching loop of the 200 branch: works whose
key is in `doi_to_metadata` are enriched and appended, others are ignored. -/
def processOkResults (doiMap : List (String × PaperMetadata)) (results : List OAWork) :
    List PaperMetadata :=
  results.foldl
    (fun acc w =>
      match alistGet doiMap (workKey w) with
      | some m => acc ++ [applyWork m w]
      | none => acc)
    []

/-- `doi_to_metadata[doi.lower()]` for a key known to be present. -/
def mapVals (doiMap : List (String × PaperMetadata)) (dois : List String) :
    List PaperMetadata :=
  dois.filterMap (fun d => alistGet doiMap (lowerStr d))

/-- Handling of one DOI batch inside `batch_enrich_with_openalex`: on a 200
the matched works are applied and the DOIs missing from the response are
appended unchanged; on a 429, another status, or an exception every record of
the batch falls back to the individual request path. -/
def processDoiBatch (o : OAOracles) (doiMap : List (String × PaperMetadata))
    (batch_dois : List String) : List PaperMetadata :=
  match o.batch batch_dois with
  | .ok results =>
    let matched := processOkResults doiMap results
    let found := results.map workKey
    let unmatched := mapVals doiMap (batch_dois.filter (fun d => !found.contains (lowerStr d)))
    matched ++ unmatched
  | _ => (mapVals doiMap batch_dois).map (enrich_with_openalex o)

/-- `batch_enrich_with_openalex(metadata_list, batch_size)`. -/
def batch_enrich_with_openalex (o : OAOracles) (metadata_list : List PaperMetadata)
    (batch_size : Nat) : List PaperMetadata :=
  let papers_with_doi := metadata_list.filter doiTruthy
  let papers_without_doi := metadata_list.filter (fun m => !doiTruthy m)
  if papers_with_doi.isEmpty then metadata_list
  else
    let doiMap := buildDoiMap papers_with_doi
    let doi_list := doiMap.map (fun e => e.1)
    let enriched := (chunksOf batch_size doi_list).foldl
      (fun acc b => acc ++ processDoiBatch o doiMap b) []
    enriched ++ papers_without_doi

/-- C3 counterexample records: two distinct records sharing one DOI. -/
def c3Meta1 : PaperMetadata := { pmid := "1", doi := some "10.1/x" }

def c3Meta2 : PaperMetadata := { pmid := "2", doi := some "10.1/x" }

/-- C3 counterexample service: the batched endpoint answers 200 with an
empty result list; the individual endpoint would answer 404. -/
def c3Oracle : OAOracles where
  indiv := fun _ _ => .notFound
  batch := fun _ => .ok []

end OpenAlexExtractor

/-! ## `process_batch` (src/main.py, lines 55-243) -/

namespace Orchestrator

open Database OpenAlexExtractor

/-- `METADATA_FETCH_BATCH_SIZE` from src/src/config.py. -/
def METADATA_FETCH_BATCH_SIZE : Nat := 200

/-- `OPENALEX_BATCH_SIZE` from src/src/config.py
(`USE_OPENALEX_BATCH_ENRICHMENT = True`, so `process_batch` takes the
batched enrichment path). -/
def OPENALEX_BATCH_SIZE : Nat := 50

/-- The external effects of `process_batch` as oracles: bulk metadata fetch
(`extract_pubmed_metadata_batch`, a pmid → metadata dict), individual
metadata fetch (`extract_pubmed_metadata`), full-text lookup
(`try_all_fulltext_sources`), the OpenAlex service, and whether
`db.insert_paper` succeeds for a record. -/
structure BatchOracles where
  metaBatch : List String → List (String × PaperMetadata)
  metaIndiv : String → Option PaperMetadata
  fulltext : PaperMetadata → Option String × Option (List (String × String))
  oa : OAOracles
  insertOk : PaperMetadata → Bool

/-- `all_metadata.update(d)` on a pmid-keyed dict. -/
def updateMap (acc : List (String × PaperMetadata))
    (kvs : List (String × PaperMetadata)) : List (String × PaperMetadata) :=
  kvs.foldl
    (fun a kv =>
      if (alistGet a kv.1).isSome then
        a.map (fun e => if e.1 = kv.1 then kv else e)
      else a ++ [kv])
    acc

/-- `all_metadata[pmid]`. -/
def mlookup (am : List (String × PaperMetadata)) (p : String) : Option PaperMetadata :=
  alistGet am p

/-- The classification loop at the top of `process_batch`. -/
structure Classified where
  pmids_to_process : List String := []
  papers_to_enrich : List PaperMetadata := []
  skipped : Nat := 0

/-- One iteration of the classification loop. -/
def classifyStep (db : PaperDB) (skip_existing : Bool) (acc : Classified)
    (pmid : String) : Classified :=
  let r := paper_needs_enrichment db pmid
  match r.2 with
  | none => { acc with pmids_to_process := acc.pmids_to_process ++ [pmid] }
  | some p =>
    if r.1 && !skip_existing then
      { acc with papers_to_enrich := acc.papers_to_enrich ++ [p] }
    else { acc with skipped := acc.skipped + 1 }

def classifyBatch (db : PaperDB) (skip_existing : Bool) (batch : List String) :
    Classified :=
  batch.foldl (classifyStep db skip_existing) {}

/-- The sub-batched bulk metadata fetch. -/
def fetchAllMetadata (o : BatchOracles) (pmids : List String) :
    List (String × PaperMetadata) :=
  (chunksOf METADATA_FETCH_BATCH_SIZE pmids).foldl
    (fun acc sb => updateMap acc (o.metaBatch sb)) []

/-- State after the individual retry of PMIDs missing from the bulk fetch. -/
structure MetaStage where
  all_metadata : List (String × PaperMetadata)
  failed : Nat

/-- One iteration of the `missing_pmids` retry loop. -/
def retryStep (o : BatchOracles) (st : MetaStage) (pmid : String) : MetaStage :=
  match o.metaIndiv pmid with
  | some md => { st with all_metadata := updateMap st.all_metadata [(pmid, md)] }
  | none => { st with failed := st.failed + 1 }

/-- The `missing_pmids` retry loop: each PMID still missing is fetched
individually; a `None` result increments `failed`. -/
def retryMissing (o : BatchOracles) (pmids : List String)
    (m0 : List (String × PaperMetadata)) : MetaStage :=
  let missing := pmids.filter (fun p => (alistGet m0 p).isNone)
  missing.foldl (retryStep o) ⟨m0, 0⟩

/-- `fetch_fulltext_for_paper`. -/
def fetch_fulltext_for_paper (o : BatchOracles) (m : PaperMetadata) : PaperMetadata :=
  let r := o.fulltext m
  match r.1 with
  | some t =>
    if t ≠ "" then
      { m with full_text := some t, full_text_sections := r.2, is_full_text_pmc := true }
    else m
  | none => m

/-- `papers_with_pmcid`. -/
def papersWithPmcid (am : List (String × PaperMetadata)) (pmids : List String) :
    List PaperMetadata :=
  pmids.filterMap (fun p =>
    match mlookup am p with
    | some md => if optStrTruthy md.pmcid then some md else none
    | none => none)

/-- `papers_without_pmcid`. -/
def papersWithoutPmcid (am : List (String × PaperMetadata)) (pmids : List String) :
    List PaperMetadata :=
  pmids.filterMap (fun p =>
    match mlookup am p with
    | some md => if optStrTruthy md.pmcid then none else some md
    | none => none)

/-- The enrichment block for existing-but-incomplete papers: refetch full
text, and count the paper as `enriched` when it now carries full text or an
abstract and the insert succeeds. -/
def enrichExisting (o : BatchOracles) (papers : List PaperMetadata) : Nat :=
  papers.foldl
    (fun n p =>
      let ep := fetch_fulltext_for_paper o p
      if (optStrTruthy ep.full_text || optStrTruthy ep.abstract) && o.insertOk ep then
        n + 1
      else n)
    0

/-- `metadata.query_id = query_id` over `all_papers_to_save`. -/
def assignQueryId (query_id : Option Int) (papers : List PaperMetadata) :
    List PaperMetadata :=
  match query_id with
  | some q => papers.map (fun m => { m with query_id := some q })
  | none => papers

/-- `all_papers_to_save` (the classified new papers after metadata fetch,
full-text fetch and query-id assignment), exposed as its own definition so
that hypotheses can speak about it. -/
def savedPapers (o : BatchOracles) (db : PaperDB) (batch : List String)
    (query_id : Option Int) (skip_existing : Bool) : List PaperMetadata :=
  let c := classifyBatch db skip_existing batch
  let st := retryMissing o c.pmids_to_process (fetchAllMetadata o c.pmids_to_process)
  let wp := (papersWithPmcid st.all_metadata c.pmids_to_process).map (fetch_fulltext_for_paper o)
  let wo := (papersWithoutPmcid st.all_metadata c.pmids_to_process).map (fetch_fulltext_for_paper o)
  assignQueryId query_id (wp ++ wo)

/-- Counters of the final save loop, plus the `add_failed_doi` side-table
additions `(doi, pmid)` for papers stored without full text. -/
structure SaveTally where
  processed : Nat := 0
  with_fulltext : Nat := 0
  with_openalex : Nat := 0
  failed : Nat := 0
  failed_dois : List (String × String) := []

/-- One iteration of the `for metadata in all_papers_final` save loop. -/
def saveStep (o : BatchOracles) (t : SaveTally) (m : PaperMetadata) : SaveTally :=
  if o.insertOk m then
    let t1 := { t with processed := t.processed + 1 }
    let t2 := if m.is_full_text_pmc then { t1 with with_fulltext := t1.with_fulltext + 1 } else t1
    let t3 := if m.openalex_retrieved then { t2 with with_openalex := t2.with_openalex + 1 } else t2
    if !m.is_full_text_pmc && optStrTruthy m.doi then
      { t3 with failed_dois := t3.failed_dois ++ [(m.doi.getD "", m.pmid)] }
    else t3
  else { t with failed := t.failed + 1 }

/-- The `for metadata in all_papers_final` save loop. -/
def saveAll (o : BatchOracles) (papers : List PaperMetadata) : SaveTally :=
  papers.foldl (saveStep o) {}

/-- The tuple returned by `process_batch`, plus the failed-DOI side-table
additions. -/
structure BatchResult where
  processed : Nat
  with_fulltext : Nat
  with_openalex : Nat
  failed : Nat
  skipped : Nat
  enriched : Nat
  failed_dois : List (String × String)
deriving Repr, DecidableEq

/-- `process_batch(pmid_batch, db, query_id, skip_existing)`. -/
def process_batch (o : BatchOracles) (db : PaperDB) (batch : List String)
    (query_id : Option Int) (skip_existing : Bool) : BatchResult :=
  let c := classifyBatch db skip_existing batch
  if c.pmids_to_process.isEmpty && c.papers_to_enrich.isEmpty then
    ⟨0, 0, 0, 0, c.skipped, 0, []⟩
  else
    let st := retryMissing o c.pmids_to_process (fetchAllMetadata o c.pmids_to_process)
    let enrichedCount := enrichExisting o c.papers_to_enrich
    let toSave := savedPapers o db batch query_id skip_existing
    let final := batch_enrich_with_openalex o.oa toSave OPENALEX_BATCH_SIZE
    let t := saveAll o final
    ⟨t.processed, t.with_fulltext, t.with_openalex, st.failed + t.failed,
      c.skipped, enrichedCount, t.failed_dois⟩

/-- C5 counterexample environment: every service returns nothing, inserts
succeed. -/
def c5Oracle : BatchOracles where
  metaBatch := fun _ => []
  metaIndiv := fun _ => none
  fulltext := fun _ => (none, none)
  oa := { indiv := fun _ _ => .notFound, batch := fun _ => .ok [] }
  insertOk := fun _ => true

/-- C5 counterexample store: one stored record with an empty abstract, so it
needs enrichment. -/
def c5DB : PaperDB := [metaToRow { pmid := "1", abstract := some "" }]

end Orchestrator

end DownloadAgent

namespace DownloadAgent
namespace PubmedExtractor

theorem tallyStep_meaningful (t : SectionTally) (sec : String × String) :
    (tallyStep t sec).meaningful =
      t.meaningful + (if !isAbstractSection sec.1 && !isBoilerplateSection sec.1
        && isMeaningfulSection sec.1 then 1 else 0) := by
  simp only [tallyStep]
  split
  · simp_all
  · split
    · simp_all
    · simp_all only [Bool.not_eq_true]
      split <;> split <;> simp_all

theorem tallyStep_boilerplate (t : SectionTally) (sec : String × String) :
    (tallyStep t sec).boilerplate =
      t.boilerplate + (if !isAbstractSection sec.1 && isBoilerplateSection sec.1
        then 1 else 0) := by
  simp only [tallyStep]
  split
  · simp_all
  · split
    · simp_all
    · simp_all only [Bool.not_eq_true]
      split <;> split <;> simp_all

theorem tallyStep_substantial (t : SectionTally) (sec : String × String) :
    (tallyStep t sec).substantial =
      t.substantial + (if !isAbstractSection sec.1 && !isBoilerplateSection sec.1
        && decide (500 < (pyStrip sec.2).length) then 1 else 0) := by
  simp only [tallyStep]
  split
  · simp_all
  · split
    · simp_all
    · simp_all only [Bool.not_eq_true]
      split <;> split <;> simp_all

theorem sectionTally_aux (sections : List (String × String)) (t : SectionTally) :
    sections.foldl tallyStep t =
      ⟨t.meaningful + ((nonAbstractSections sections).countP
          (fun s => !isBoilerplateSection s.1 && isMeaningfulSection s.1)),
       t.boilerplate + ((nonAbstractSections sections).countP
          (fun s => isBoilerplateSection s.1)),
       t.substantial + ((nonAbstractSections sections).countP
          (fun s => !isBoilerplateSection s.1 && decide (500 < (pyStrip s.2).length)))⟩ := by
  induction sections generalizing t with
  | nil => simp [nonAbstractSections]
  | cons sec rest ih =>
    rw [List.foldl_cons, ih]
    have hm := tallyStep_meaningful t sec
    have hb := tallyStep_boilerplate t sec
    have hs := tallyStep_substantial t sec
    simp only [nonAbstractSections, List.filter_cons]
    by_cases ha : isAbstractSection sec.1
    · simp only [ha] at hm hb hs ⊢
      simp only [Bool.not_true, Bool.false_and, if_false, Nat.add_zero] at hm hb hs
      simp [hm, hb, hs]
    · simp only [ha] at hm hb hs ⊢
      simp only [Bool.not_false, Bool.true_and, if_true, List.countP_cons] at hm hb hs ⊢
      rw [hm, hb, hs]
      refine SectionTally.mk.injEq _ _ _ _ _ _ ▸ ⟨?_, ?_, ?_⟩ <;> split <;> simp_all <;>
        omega

theorem sectionTally_eq (sections : List (String × String)) :
    sectionTally sections =
      ⟨meaningfulCount sections, boilerplateCount sections, substantialCount sections⟩ := by
  simp [sectionTally, sectionTally_aux, meaningfulCount, boilerplateCount, substantialCount]

set_option maxRecDepth 10000 in
/-- C1, counterexample: on a section map holding a short "Introduction" and a
501-character unclassified "Patients" section (no abstract, empty flat text),
`has_meaningful_content` accepts although none of the claim's three
acceptance clauses holds — so the claimed "exactly when" characterisation is
false at this input. -/
theorem c1_counterexample :
    has_meaningful_content c1Sections "" = true ∧ claimC1Accept c1Sections "" = false :=
  ⟨by decide, by decide⟩

/-- C1, amended: excluding abstract-named sections, the heuristic accepts
exactly when (a) at least one substantive (meaningfully named,
non-boilerplate) section exists AND at least one non-boilerplate section
exceeds 500 characters — not necessarily the same section; or (b) at least
three non-boilerplate sections exceed 500 characters and there are strictly
fewer boilerplate sections than such sections; or (c) there are no sections
at all and the flat text exceeds 2000 characters; or (d) none of the above
holds, at least two non-boilerplate sections exceed 500 characters, it is
not the case that boilerplate is present with no substantive section and
fewer than three long sections, and the flat text exceeds 3000 characters. -/
theorem c1_amended (sections : List (String × String)) (full_text : String) :
    has_meaningful_content sections full_text = true ↔
      ((sections = [] ∧ 2000 < (pyStrip full_text).length)
       ∨ (sections ≠ [] ∧ 1 ≤ meaningfulCount sections ∧ 1 ≤ substantialCount sections)
       ∨ (sections ≠ [] ∧ 3 ≤ substantialCount sections
          ∧ boilerplateCount sections < substantialCount sections)
       ∨ (sections ≠ []
          ∧ ¬(1 ≤ meaningfulCount sections ∧ 1 ≤ substantialCount sections)
          ∧ ¬(3 ≤ substantialCount sections
              ∧ boilerplateCount sections < substantialCount sections)
          ∧ ¬(0 < boilerplateCount sections ∧ meaningfulCount sections = 0
              ∧ substantialCount sections < 3)
          ∧ 2 ≤ substantialCount sections ∧ 3000 < (pyStrip full_text).length)) := by
  unfold has_meaningful_content
  rcases eq_or_ne sections [] with h | h
  · simp [h]
  · have hne : sections.isEmpty = false := by simpa [List.isEmpty_iff] using h
    simp only [hne, Bool.false_eq_true, if_false, sectionTally_eq, h, ne_eq,
      not_false_iff, true_and, false_and, false_or]
    split_ifs with h1 h2 h3 h4 <;> simp_all <;> try omega

end PubmedExtractor

namespace QueryCacheMod

/-- C9: after `set q ids`, `get q` returns exactly `ids`, and `get q'` for
any `q'` with the same whitespace-separated tokens as `q` (i.e. differing
from `q` only in whitespace) returns the same list, because the cache key is
the (hashed) whitespace-normalised query text. -/
theorem c9_cache_fidelity (c : QueryCache) (q q' : String) (ids : List String)
    (h : pySplit q' = pySplit q) :
    (c.set q ids).get q = some ids ∧ (c.set q ids).get q' = some ids := by
  have hk : queryKey q' = queryKey q := by
    simp [queryKey, normalizeQuery, h]
  refine ⟨?_, ?_⟩ <;> simp [QueryCache.get, QueryCache.set, hk, List.find?]

/-- Witness for C9 at an empty cache and two queries differing only in
whitespace. -/
theorem c9_cache_fidelity_witness :
    pySplit "cancer  AND aging " = pySplit "cancer AND aging"
    ∧ ((QueryCache.mk []).set "cancer AND aging" ["1", "2"]).get "cancer AND aging"
        = some ["1", "2"]
    ∧ ((QueryCache.mk []).set "cancer AND aging" ["1", "2"]).get "cancer  AND aging "
        = some ["1", "2"] :=
  ⟨by decide,
   c9_cache_fidelity ⟨[]⟩ "cancer AND aging" "cancer  AND aging " ["1", "2"] (by decide)⟩

end QueryCacheMod

namespace NcbiGateway

/-- C6: when the wrapped operation raises on every one of the
`MAX_RETRIES` attempts, `safe_ncbi_call` returns `none` — a failure value
distinct from any successful result, in particular from the `some []` a
successful search with an empty identifier list yields. -/
theorem c6_exhausted_retries (f : Nat → CallResult (List String))
    (h : ∀ i, i < MAX_RETRIES → ∃ msg, f i = .raised msg) :
    safe_ncbi_call f = none ∧ safe_ncbi_call f ≠ some [] := by
  obtain ⟨m0, h0⟩ := h 0 (by decide)
  obtain ⟨m1, h1⟩ := h 1 (by decide)
  obtain ⟨m2, h2⟩ := h 2 (by decide)
  obtain ⟨m3, h3⟩ := h 3 (by decide)
  obtain ⟨m4, h4⟩ := h 4 (by decide)
  have : safe_ncbi_call f = none := by
    simp [safe_ncbi_call, MAX_RETRIES, safeNcbiAux, h0, h1, h2, h3, h4]
  exact ⟨this, by simp [this]⟩

/-- Witness for C6: the always-raising operation. -/
theorem c6_exhausted_retries_witness :
    (∀ i, i < MAX_RETRIES → ∃ msg, alwaysRaise i = .raised msg)
    ∧ safe_ncbi_call alwaysRaise = none ∧ safe_ncbi_call alwaysRaise ≠ some [] :=
  ⟨fun _ _ => ⟨"HTTP 500", rfl⟩,
   c6_exhausted_retries alwaysRaise (fun _ _ => ⟨"HTTP 500", rfl⟩)⟩

end NcbiGateway

namespace Database

theorem find?_upsertRow (db : PaperDB) (r : Row) :
    (upsertRow db r).find? (fun x => x.pmid = r.pmid) = some r := by
  unfold upsertRow
  induction db with
  | nil => simp
  | cons x xs ih =>
    by_cases hx : x.pmid = r.pmid
    · simpa [List.filter_cons, hx] using ih
    · simpa [List.filter_cons, hx, List.find?_cons, hx] using ih

theorem filter_upsertRow (db : PaperDB) (r : Row) :
    (upsertRow db r).filter (fun x => x.pmid ≠ r.pmid)
      = db.filter (fun x => x.pmid ≠ r.pmid) := by
  unfold upsertRow
  rw [List.filter_append, List.filter_filter]
  simp

theorem upsertRow_idem (db : PaperDB) (r : Row) :
    upsertRow (upsertRow db r) r = upsertRow db r := by
  unfold upsertRow
  rw [List.filter_append, List.filter_filter]
  simp

theorem needs_eq (db : PaperDB) (identifier : String) :
    paper_needs_enrichment db identifier =
      match lookupPaper db identifier with
      | none => (false, none)
      | some p => (needsFlag p, some p) := rfl

theorem needsFlag_iff (p : PaperMetadata) :
    needsFlag p = true ↔
      ((p.abstract = none ∨ p.abstract = some ""
        ∨ pyStrip (p.abstract.getD "") = "")
       ∨ (p.full_text = none ∨ p.full_text = some "")) := by
  rcases ha : p.abstract with _ | a <;> rcases hf : p.full_text with _ | f <;>
    simp [needsFlag, optFalsy, ha, hf] <;> tauto

theorem row_to_metadata_metaToRow (m : PaperMetadata) :
    row_to_metadata (metaToRow m) = normalizeRead m := by
  rcases hs : m.full_text_sections with _ | ⟨_ | ⟨s, ss⟩⟩ <;>
    rcases hp : m.primary_topic with _ | ⟨_ | ⟨e, es⟩⟩ <;>
      rcases hb : m.is_full_text_pmc <;> rcases ho : m.openalex_retrieved <;>
        simp [row_to_metadata, metaToRow, normalizeRead, sectionsTruthy, topicTruthy,
          hs, hp, hb, ho]

/-- C4: `insert_paper` is an insert-or-replace keyed on the `pmid` primary
key — a failed upsert returns `false` and leaves the table unchanged, a
successful one returns `true`, repeating it leaves the table in the same
state as doing it once, afterwards the row under `m.pmid` is exactly the
row serialised from `m`, and every row under another primary identifier is
untouched. -/
theorem c4_upsert_semantics (db : PaperDB) (m : PaperMetadata) :
    insert_paper db m false = (false, db)
    ∧ (insert_paper db m true).1 = true
    ∧ (insert_paper (insert_paper db m true).2 m true).2 = (insert_paper db m true).2
    ∧ ((insert_paper db m true).2.find? (fun r => r.pmid = m.pmid)) = some (metaToRow m)
    ∧ (insert_paper db m true).2.filter (fun r => r.pmid ≠ m.pmid)
        = db.filter (fun r => r.pmid ≠ m.pmid) := by
  refine ⟨rfl, rfl, ?_, ?_, ?_⟩
  · simpa [insert_paper] using upsertRow_idem db (metaToRow m)
  · exact find?_upsertRow db (metaToRow m)
  · exact filter_upsertRow db (metaToRow m)

/-- C7, amended: `paper_needs_enrichment` reports `true` exactly when a
record is found (by primary identifier, then by secondary identifier) whose
abstract is absent/empty/whitespace-only OR whose flat `full_text` is
absent/empty; `full_text_sections` are not consulted.  The second component
is the looked-up record (`none` when no record exists). -/
theorem c7_amended (db : PaperDB) (identifier : String) :
    ((paper_needs_enrichment db identifier).1 = true ↔
      ∃ p, lookupPaper db identifier = some p
        ∧ ((p.abstract = none ∨ p.abstract = some ""
            ∨ pyStrip (p.abstract.getD "") = "")
           ∨ (p.full_text = none ∨ p.full_text = some "")))
    ∧ (paper_needs_enrichment db identifier).2 = lookupPaper db identifier := by
  cases h : lookupPaper db identifier with
  | none => simp [needs_eq, h]
  | some p => simp [needs_eq, h, needsFlag_iff]

/-- C7, counterexample: a stored record with a non-empty abstract, an empty
flat `full_text` and a non-empty section map is reported as needing
enrichment by the code, while the claim's condition (abstract empty OR
full_text/full_text_sections empty) is false for it. -/
theorem c7_counterexample :
    (paper_needs_enrichment c7DB "1").1 = true
    ∧ ((paper_needs_enrichment c7DB "1").2.map claimC7Needs) = some false :=
  ⟨rfl, rfl⟩

/-- C10, counterexample: upserting a record whose primary identifier is the
empty string succeeds, but retrieving by that primary identifier returns
nothing — not a record equal to the stored one. -/
theorem c10_counterexample :
    (insert_paper [] c10Meta true).1 = true
    ∧ get_paper (insert_paper [] c10Meta true).2 c10Meta.pmid = none :=
  ⟨rfl, rfl⟩

/-- C10, amended: for every record with a non-empty primary identifier, a
successful upsert followed by `get_paper` on that identifier returns the
record unchanged on every persisted field, except that an absent/empty
section map reads back as the empty map and an absent/empty topic taxonomy
reads back as absent. -/
theorem c10_roundtrip (db : PaperDB) (m : PaperMetadata) (h : m.pmid ≠ "") :
    get_paper (insert_paper db m true).2 m.pmid = some (normalizeRead m) := by
  have hfind : (upsertRow db (metaToRow m)).find? (fun r => r.pmid = m.pmid)
      = some (metaToRow m) := find?_upsertRow db (metaToRow m)
  show (if m.pmid = "" then none
    else ((upsertRow db (metaToRow m)).find? (fun r => r.pmid = m.pmid)).map row_to_metadata)
      = some (normalizeRead m)
  rw [if_neg h, hfind]
  simp [row_to_metadata_metaToRow]

/-- Witness for C10 on a fully populated record. -/
theorem c10_roundtrip_witness :
    c10GoodMeta.pmid ≠ ""
    ∧ get_paper (insert_paper [] c10GoodMeta true).2 c10GoodMeta.pmid
        = some (normalizeRead c10GoodMeta) :=
  ⟨by decide, c10_roundtrip [] c10GoodMeta (by decide)⟩

end Database

namespace ResolveDoiDuplicates

theorem dLookup_setVal_self (r : DRow) (k : String) (v : Option String)
    (hk : k ∈ r.map (fun e => e.1)) : dLookup (setVal r k v) k = v := by
  induction r with
  | nil => simp at hk
  | cons e es ih =>
    by_cases he : e.1 = k
    · simp [setVal, dLookup, alistGet, he]
    · simp only [List.map_cons, List.mem_cons] at hk
      rcases hk with hk | hk
      · exact absurd hk.symm he
      · simpa [setVal, dLookup, alistGet, he] using ih hk

theorem dLookup_setVal_ne (r : DRow) (k k' : String) (v : Option String)
    (h : k' ≠ k) : dLookup (setVal r k v) k' = dLookup r k' := by
  induction r with
  | nil => rfl
  | cons e es ih =>
    by_cases he : e.1 = k
    · have hkk : ¬ k = k' := fun hh => h hh.symm
      have he' : ¬ e.1 = k' := by rw [he]; exact hkk
      simpa [setVal, dLookup, alistGet, he, hkk, he'] using ih
    · by_cases he' : e.1 = k'
      · simp [setVal, dLookup, alistGet, he, he', h]
      · simpa [setVal, dLookup, alistGet, he, he'] using ih

theorem keys_setVal (r : DRow) (k : String) (v : Option String) :
    (setVal r k v).map (fun e => e.1) = r.map (fun e => e.1) := by
  induction r with
  | nil => rfl
  | cons e es ih =>
    by_cases he : e.1 = k <;> simp only [setVal, List.map_cons, he, if_true, if_false, if_pos, if_neg, ne_eq, not_false_iff] <;> simp_all [setVal]

theorem keys_mergeKV (m : DRow) (k : String) (v : Option String) :
    (mergeKV m k v).map (fun e => e.1) = m.map (fun e => e.1) := by
  unfold mergeKV
  split_ifs <;> simp [keys_setVal]

theorem dLookup_mergeKV_ne (m : DRow) (k k' : String) (v : Option String) (h : k' ≠ k) :
    dLookup (mergeKV m k v) k' = dLookup m k' := by
  unfold mergeKV
  split_ifs <;> simp [dLookup_setVal_ne m k k' v h]

theorem dLookup_mergeKV_self (m : DRow) (k : String) (v : Option String)
    (hk : k ∈ m.map (fun e => e.1)) :
    dLookup (mergeKV m k v) k =
      if k = "pmid" then dLookup m k
      else if valEmpty (dLookup m k) && !valEmpty v then v
      else dLookup m k := by
  unfold mergeKV
  split_ifs with h1 h2 <;> simp_all [dLookup_setVal_self m k v hk]



theorem alistGet_of_mem {β : Type} (r : List (String × β)) (k : String)
    (hk : k ∈ r.map (fun e => e.1)) : ∃ v, alistGet r k = some v := by
  induction r with
  | nil => simp at hk
  | cons e es ih =>
    by_cases he : e.1 = k
    · exact ⟨e.2, by simp [alistGet, he]⟩
    · simp only [List.map_cons, List.mem_cons] at hk
      rcases hk with hk | hk
      · exact absurd hk.symm he
      · simpa [alistGet, he] using ih hk

theorem dLookup_of_mem (r : DRow) (k : String)
    (hk : k ∈ r.map (fun e => e.1)) : alistGet r k = some (dLookup r k) := by
  obtain ⟨v, hv⟩ := alistGet_of_mem r k hk
  simp [dLookup, hv]

theorem keys_foldl_mergeKV (m : DRow) (es : List (String × Option String)) :
    ((es.foldl (fun acc e => mergeKV acc e.1 e.2) m).map (fun e => e.1))
      = m.map (fun e => e.1) := by
  induction es generalizing m with
  | nil => rfl
  | cons e rest ih => rw [List.foldl_cons, ih, keys_mergeKV]

theorem keys_mergeFromRow (m other : DRow) :
    (mergeFromRow m other).map (fun e => e.1) = m.map (fun e => e.1) :=
  keys_foldl_mergeKV m other

theorem dLookup_foldl_no_k (m : DRow) (es : List (String × Option String)) (k : String)
    (h : k ∉ es.map (fun e => e.1)) :
    dLookup (es.foldl (fun acc e => mergeKV acc e.1 e.2) m) k = dLookup m k := by
  induction es generalizing m with
  | nil => rfl
  | cons e rest ih =>
    simp only [List.map_cons, List.mem_cons, not_or] at h
    rw [List.foldl_cons, ih _ h.2, dLookup_mergeKV_ne _ _ _ _ h.1]

theorem dLookup_mergeFromRow (m other : DRow) (k : String)
    (hkm : k ∈ m.map (fun e => e.1)) (hnd : (other.map (fun e => e.1)).Nodup) :
    dLookup (mergeFromRow m other) k =
      match alistGet other k with
      | none => dLookup m k
      | some v =>
        if k = "pmid" then dLookup m k
        else if valEmpty (dLookup m k) && !valEmpty v then v
        else dLookup m k := by
  unfold mergeFromRow
  induction other generalizing m with
  | nil => rfl
  | cons e rest ih =>
    simp only [List.map_cons, List.nodup_cons] at hnd
    rw [List.foldl_cons]
    by_cases he : e.1 = k
    · have hrest : k ∉ rest.map (fun x => x.1) := he ▸ hnd.1
      rw [dLookup_foldl_no_k _ _ _ hrest, he, dLookup_mergeKV_self m k e.2 hkm]
      simp [alistGet, he]
    · have hkm' : k ∈ (mergeKV m e.1 e.2).map (fun x => x.1) := by
        rw [keys_mergeKV]; exact hkm
      rw [ih (mergeKV m e.1 e.2) hkm' hnd.2]
      have hne : dLookup (mergeKV m e.1 e.2) k = dLookup m k :=
        dLookup_mergeKV_ne m e.1 k e.2 (fun hh => he hh.symm)
      cases halist : alistGet rest k <;> simp [alistGet, he, halist, hne]

theorem dLookup_foldl_mergeFromRow (m : DRow) (others : List DRow) (k : String)
    (hkm : k ∈ m.map (fun e => e.1)) (hnd : (m.map (fun e => e.1)).Nodup)
    (hsch : ∀ r ∈ others, r.map (fun e => e.1) = m.map (fun e => e.1)) :
    dLookup (others.foldl mergeFromRow m) k =
      if k = "pmid" then dLookup m k
      else if !valEmpty (dLookup m k) then dLookup m k
      else
        match (others.map (fun r => dLookup r k)).find? (fun v => !valEmpty v) with
        | some v => v
        | none => dLookup m k := by
  induction others generalizing m with
  | nil => split_ifs <;> rfl
  | cons o rest ih =>
    have hko : k ∈ o.map (fun e => e.1) := by rw [hsch o (by simp)]; exact hkm
    have hndo : (o.map (fun e => e.1)).Nodup := by rw [hsch o (by simp)]; exact hnd
    have hstep : dLookup (mergeFromRow m o) k =
        if k = "pmid" then dLookup m k
        else if valEmpty (dLookup m k) && !valEmpty (dLookup o k) then dLookup o k
        else dLookup m k := by
      rw [dLookup_mergeFromRow m o k hkm hndo, dLookup_of_mem o k hko]
    have hkeys : (mergeFromRow m o).map (fun e => e.1) = m.map (fun e => e.1) :=
      keys_mergeFromRow m o
    have hkm' : k ∈ (mergeFromRow m o).map (fun e => e.1) := by rw [hkeys]; exact hkm
    have hnd' : ((mergeFromRow m o).map (fun e => e.1)).Nodup := by rw [hkeys]; exact hnd
    have hsch' : ∀ r ∈ rest, r.map (fun e => e.1) = (mergeFromRow m o).map (fun e => e.1) := by
      intro r hr
    -- r keys = m keys = mergeFromRow keys
      rw [hkeys]; exact hsch r (by simp [hr])
    rw [List.foldl_cons, ih (mergeFromRow m o) hkm' hnd' hsch']
    by_cases hp : k = "pmid"
    · simp only [hp, if_true] at hstep ⊢
      simp [hstep]
    · simp only [hp, if_false] at hstep ⊢
      by_cases hm : valEmpty (dLookup m k)
      · simp only [hm, Bool.true_and, if_true, Bool.not_true, Bool.false_eq_true] at hstep ⊢
        by_cases ho : valEmpty (dLookup o k)
        · have : dLookup (mergeFromRow m o) k = dLookup m k := by
            simpa [ho] using hstep
          simp [this, hm, List.find?_cons, ho]
        · have : dLookup (mergeFromRow m o) k = dLookup o k := by
            simpa [ho] using hstep
          simp [this, ho, List.find?_cons, hm]
      · have : dLookup (mergeFromRow m o) k = dLookup m k := by
          simpa [hm] using hstep
        simp [this, hm]



/-- C8, counterexample: in a three-row duplicate group whose primary has an
empty abstract, `strategy_merge` fills the abstract with the FIRST non-empty
value from the remaining rows ("short"), not with the longest one as the
claim states. -/
theorem c8_counterexample :
    dLookup (strategy_merge c8Group) "abstract" = some "short"
    ∧ claimMergeField c8Primary [c8Other1, c8Other2] "abstract"
        = some "a considerably longer abstract"
    ∧ dLookup (strategy_merge c8Group) "abstract"
        ≠ claimMergeField c8Primary [c8Other1, c8Other2] "abstract" :=
  ⟨rfl, rfl, by decide⟩

/-- C8, amended: `strategy_merge` retains the first (most recent) row of
the group and fills each of its empty (null or empty-string) fields other
than the primary key with the first non-empty value found in the remaining
rows in group order; values are copied whole — there is no longest-text
preference and no union of list-valued fields. -/
theorem c8_merge_first_fill (primary : DRow) (others : List DRow) (k : String)
    (hk : k ∈ primary.map (fun e => e.1))
    (hnd : (primary.map (fun e => e.1)).Nodup)
    (hsch : ∀ r ∈ others, r.map (fun e => e.1) = primary.map (fun e => e.1)) :
    dLookup (strategy_merge (primary :: others)) k =
      if k = "pmid" then dLookup primary k
      else if !valEmpty (dLookup primary k) then dLookup primary k
      else
        match (others.map (fun r => dLookup r k)).find? (fun v => !valEmpty v) with
        | some v => v
        | none => dLookup primary k :=
  dLookup_foldl_mergeFromRow primary others k hk hnd hsch

/-- Witness for C8 on the concrete three-row group. -/
theorem c8_merge_first_fill_witness :
    ("abstract" ∈ c8Primary.map (fun e => e.1)
     ∧ (c8Primary.map (fun e => e.1)).Nodup
     ∧ ∀ r ∈ [c8Other1, c8Other2],
         r.map (fun e => e.1) = c8Primary.map (fun e => e.1))
    ∧ dLookup (strategy_merge (c8Primary :: [c8Other1, c8Other2])) "abstract" =
        (if "abstract" = "pmid" then dLookup c8Primary "abstract"
         else if !valEmpty (dLookup c8Primary "abstract") then dLookup c8Primary "abstract"
         else
           match ([c8Other1, c8Other2].map (fun r => dLookup r "abstract")).find?
               (fun v => !valEmpty v) with
           | some v => v
           | none => dLookup c8Primary "abstract") :=
  ⟨⟨by decide, by decide, by decide⟩,
   c8_merge_first_fill c8Primary [c8Other1, c8Other2] "abstract"
     (by decide) (by decide) (by decide)⟩

end ResolveDoiDuplicates

namespace PubmedSearch

theorem setUpdate_nodup (acc ids : List String) (h : acc.Nodup) :
    (setUpdate acc ids).Nodup := by
  unfold setUpdate
  induction ids generalizing acc with
  | nil => exact h
  | cons x xs ih =>
    rw [List.foldl_cons]
    apply ih
    by_cases hx : x ∈ acc
    · simpa [hx] using h
    · simp [hx, List.nodup_append, h]

theorem foldl_setUpdate_nodup {α : Type} (l : List α) (f : α → List String)
    (acc : List String) (h : acc.Nodup) :
    (l.foldl (fun a m => setUpdate a (f m)) acc).Nodup := by
  induction l generalizing acc with
  | nil => exact h
  | cons x xs ih => exact ih _ (setUpdate_nodup _ _ h)

theorem searchYears_nodup (o : EsearchOracle) (target : Nat) (years : List Nat)
    (acc : List String) (h : acc.Nodup) :
    (searchYears o target years acc).Nodup := by
  induction years generalizing acc with
  | nil => simpa [searchYears] using h
  | cons y ys ih =>
    rw [searchYears]
    by_cases hc : o.yearCount y = 0
    · simpa [hc] using ih acc h
    · simp only [hc, if_false]
      split
      · split
        · exact setUpdate_nodup _ _ h
        · exact ih _ (setUpdate_nodup _ _ h)
      · split
        · exact foldl_setUpdate_nodup _ _ _ h
        · exact ih _ (foldl_setUpdate_nodup _ _ _ h)

/-- C2, amended: whenever `min(total_count, max_results)` exceeds the
window cap, `search_pubmed` takes the date-splitting path, and the list it
returns contains no duplicate identifiers — but its length is whatever the
deduplicated union of the processed partitions happens to be, not
necessarily `min(total_count, max_results)` (there is no final truncation,
and partition counts inconsistent with the probe can leave it short). -/
theorem c2_dedup (o : EsearchOracle) (currentYear max_results : Nat)
    (h : 10000 < min o.totalCount max_results) :
    search_pubmed o none currentYear max_results
      = search_pubmed_with_date_splitting o currentYear (min o.totalCount max_results)
    ∧ (search_pubmed o none currentYear max_results).Nodup := by
  have hnum : ¬ (min o.totalCount max_results = 0) := by omega
  have heq : search_pubmed o none currentYear max_results
      = search_pubmed_with_date_splitting o currentYear (min o.totalCount max_results) := by
    unfold search_pubmed
    simp [hnum, h]
  refine ⟨heq, ?_⟩
  rw [heq]
  exact searchYears_nodup o _ _ [] (by simp)

/-- C2, counterexample: a probe reporting 10001 matches (beyond the cap)
whose year partitions only ever surface five identifiers makes the
date-partitioned search return a 5-element list — not one of length
`min(total_count, max_results) = 10001`. -/
theorem c2_counterexample :
    search_pubmed c2Oracle none 2025 50000 = ["11", "12", "13", "14", "15"]
    ∧ 10000 < min c2Oracle.totalCount 50000
    ∧ (search_pubmed c2Oracle none 2025 50000).length ≠ min c2Oracle.totalCount 50000 :=
  ⟨by decide, by decide, by decide⟩

/-- Witness for C2's amended theorem on the concrete oracle. -/
theorem c2_dedup_witness :
    10000 < min c2Oracle.totalCount 50000
    ∧ (search_pubmed c2Oracle none 2025 50000
        = search_pubmed_with_date_splitting c2Oracle 2025 (min c2Oracle.totalCount 50000)
       ∧ (search_pubmed c2Oracle none 2025 50000).Nodup) :=
  ⟨by decide, c2_dedup c2Oracle 2025 50000 (by decide)⟩

end PubmedSearch

theorem lowerChar_idem (c : Char) : lowerChar (lowerChar c) = lowerChar c := by
  unfold lowerChar
  cases h : asciiLowerTable.find? (fun p => p.1 = c) with
  | none => simp [h]
  | some p =>
    have hp : p ∈ asciiLowerTable := List.mem_of_find?_eq_some h
    have hnone : asciiLowerTable.find? (fun q => q.1 = p.2) = none := by
      fin_cases hp <;> decide
    simp [h, hnone]

theorem lowerStr_idem (s : String) : lowerStr (lowerStr s) = lowerStr s := by
  show String.mk (((s.toList.map lowerChar)).map lowerChar) = String.mk (s.toList.map lowerChar)
  rw [List.map_map]
  exact congrArg String.mk (List.map_congr_left (fun a _ => lowerChar_idem a))



theorem mem_foldl_append {α β : Type} (f : β → List α) (l : List β) (acc : List α) (x : α) :
    (x ∈ l.foldl (fun a b => a ++ f b) acc) ↔ (x ∈ acc ∨ ∃ b ∈ l, x ∈ f b) := by
  induction l generalizing acc with
  | nil => simp
  | cons b bs ih =>
    rw [List.foldl_cons, ih]
    simp only [List.mem_append, List.mem_cons]
    constructor
    · rintro ((h | h) | ⟨c, hc, hx⟩)
      · exact Or.inl h
      · exact Or.inr ⟨b, Or.inl rfl, h⟩
      · exact Or.inr ⟨c, Or.inr hc, hx⟩
    · rintro (h | ⟨c, (rfl | hc), hx⟩)
      · exact Or.inl (Or.inl h)
      · exact Or.inl (Or.inr hx)
      · exact Or.inr ⟨c, hc, hx⟩

theorem chunksOfFuel_join {α : Type} (n : Nat) (hn : 0 < n) (fuel : Nat) :
    ∀ l : List α, l.length ≤ fuel → (chunksOfFuel n fuel l).flatten = l := by
  induction fuel with
  | zero =>
    intro l h
    match l with
    | [] => rfl
    | c :: cs => simp at h
  | succ fuel ih =>
    intro l h
    match l with
    | [] => rfl
    | c :: cs =>
      show ((c :: cs).take n :: chunksOfFuel n fuel ((c :: cs).drop n)).flatten = c :: cs
      rw [List.flatten_cons, ih _ (by
        simp only [List.length_drop, List.length_cons]
        simp only [List.length_cons] at h
        omega)]
      exact List.take_append_drop n (c :: cs)

theorem chunksOf_join {α : Type} (n : Nat) (hn : 0 < n) (l : List α) :
    (chunksOf n l).flatten = l := by
  unfold chunksOf
  rw [if_neg (by omega)]
  exact chunksOfFuel_join n hn l.length l (Nat.le_refl _)

theorem chunksOfFuel_sublist {α : Type} (n fuel : Nat) :
    ∀ l b : List α, b ∈ chunksOfFuel n fuel l → b.Sublist l := by
  induction fuel with
  | zero =>
    intro l b hb
    match l with
    | [] => simp [chunksOfFuel] at hb
    | c :: cs => simp [chunksOfFuel] at hb
  | succ fuel ih =>
    intro l b hb
    match l with
    | [] => simp [chunksOfFuel] at hb
    | c :: cs =>
      have hb' : b = (c :: cs).take n ∨ b ∈ chunksOfFuel n fuel ((c :: cs).drop n) := by
        simpa [chunksOfFuel] using hb
      rcases hb' with rfl | hb'
      · exact List.take_sublist n (c :: cs)
      · exact (ih _ b hb').trans (List.drop_sublist n (c :: cs))

theorem chunksOf_sublist {α : Type} (n : Nat) (l b : List α) (hb : b ∈ chunksOf n l) :
    b.Sublist l := by
  unfold chunksOf at hb
  split at hb
  · simp at hb
  · exact chunksOfFuel_sublist n l.length l b hb

theorem mem_of_mem_chunksOf {α : Type} (n : Nat) (hn : 0 < n) (l : List α) (x : α)
    (hx : x ∈ l) : ∃ b ∈ chunksOf n l, x ∈ b := by
  have := chunksOf_join n hn l
  rw [← this] at hx
  simpa using (List.mem_flatten.mp hx)



theorem alistGet_append {β : Type} (l1 l2 : List (String × β)) (k : String) :
    alistGet (l1 ++ l2) k =
      match alistGet l1 k with
      | some v => some v
      | none => alistGet l2 k := by
  induction l1 with
  | nil => rfl
  | cons e es ih =>
    by_cases he : e.1 = k <;> simp [alistGet, he, ih]

theorem alistGet_singleton_ne {β : Type} (k k' : String) (v : β) (h : k' ≠ k) :
    alistGet [(k, v)] k' = none := by
  simp [alistGet, Ne.symm h]

namespace OpenAlexExtractor

open Database

theorem alistGet_keyed_map (papers : List PaperMetadata) (m : PaperMetadata)
    (hm : m ∈ papers) (hnd : (papers.map oaKey).Nodup) :
    alistGet (papers.map (fun x => (oaKey x, x))) (oaKey m) = some m := by
  induction papers with
  | nil => simp at hm
  | cons p ps ih =>
    simp only [List.map_cons, List.nodup_cons] at hnd
    rcases List.mem_cons.mp hm with rfl | hm'
    · simp [alistGet]
    · have hne : oaKey p ≠ oaKey m := by
        intro hh
        exact hnd.1 (hh ▸ List.mem_map_of_mem oaKey hm')
      simpa [alistGet, hne] using ih hm' hnd.2

theorem buildDoiMap_aux (papers : List PaperMetadata) (acc : List (String × PaperMetadata))
    (hnd : (papers.map oaKey).Nodup)
    (hdisj : ∀ m ∈ papers, alistGet acc (oaKey m) = none) :
    papers.foldl
      (fun acc m =>
        let key := lowerStr (cleanedDoi m)
        if (alistGet acc key).isSome then
          acc.map (fun e => if e.1 = key then (key, m) else e)
        else acc ++ [(key, m)])
      acc
      = acc ++ papers.map (fun m => (oaKey m, m)) := by
  induction papers generalizing acc with
  | nil => simp
  | cons m ms ih =>
    simp only [List.map_cons, List.nodup_cons] at hnd
    rw [List.foldl_cons]
    have hget : alistGet acc (oaKey m) = none := hdisj m (by simp)
    have hkey : lowerStr (cleanedDoi m) = oaKey m := rfl
    simp only [hkey, hget, Option.isSome_none, Bool.false_eq_true, if_false]
    rw [ih (acc ++ [(oaKey m, m)]) hnd.2 ?_]
    · simp
    · intro m' hm'
      rw [alistGet_append]
      have h1 : alistGet acc (oaKey m') = none := hdisj m' (by simp [hm'])
      have h2 : oaKey m' ≠ oaKey m := by
        intro hh
        exact hnd.1 (hh ▸ List.mem_map_of_mem oaKey hm')
      rw [h1, alistGet_singleton_ne _ _ _ h2]

theorem buildDoiMap_eq (papers : List PaperMetadata)
    (hnd : (papers.map oaKey).Nodup) :
    buildDoiMap papers = papers.map (fun m => (oaKey m, m)) := by
  simpa [buildDoiMap] using buildDoiMap_aux papers [] hnd (by intro m _; rfl)

theorem processOkResults_eq (doiMap : List (String × PaperMetadata)) (rs : List OAWork) :
    processOkResults doiMap rs
      = rs.filterMap (fun w => (alistGet doiMap (workKey w)).map (fun m => applyWork m w)) := by
  suffices h : ∀ acc, rs.foldl
      (fun acc w =>
        match alistGet doiMap (workKey w) with
        | some m => acc ++ [applyWork m w]
        | none => acc) acc
      = acc ++ rs.filterMap (fun w => (alistGet doiMap (workKey w)).map (fun m => applyWork m w)) by
    simpa [processOkResults] using h []
  induction rs with
  | nil => simp
  | cons w ws ih =>
    intro acc
    rw [List.foldl_cons]
    cases hw : alistGet doiMap (workKey w) with
    | none => simp [hw, ih]
    | some m => simp [hw, ih]

theorem applyWork_pmid (m : PaperMetadata) (w : OAWork) :
    (applyWork m w).pmid = m.pmid := rfl

theorem enrichLoop_pmid (o : OAOracles) (d : String) (m : PaperMetadata)
    (attempt fuel : Nat) : (enrichLoop o d m attempt fuel).pmid = m.pmid := by
  induction fuel generalizing attempt with
  | zero => rfl
  | succ fuel ih =>
    show (match o.indiv d attempt with
      | .ok w => applyWork m w
      | .notFound => m
      | .rateLimited =>
        if attempt < MAX_RETRIES - 1 then enrichLoop o d m (attempt + 1) fuel else m
      | .otherStatus =>
        if attempt < MAX_RETRIES - 1 then enrichLoop o d m (attempt + 1) fuel else m
      | .failed =>
        if attempt < MAX_RETRIES - 1 then enrichLoop o d m (attempt + 1) fuel else m).pmid
      = m.pmid
    cases h : o.indiv d attempt with
    | ok w => simp only [h]; rfl
    | notFound => simp only [h]
    | rateLimited => simp only [h]; split; exacts [ih _, rfl]
    | otherStatus => simp only [h]; split; exacts [ih _, rfl]
    | failed => simp only [h]; split; exacts [ih _, rfl]

theorem enrich_with_openalex_pmid (o : OAOracles) (m : PaperMetadata) :
    (enrich_with_openalex o m).pmid = m.pmid := by
  unfold enrich_with_openalex
  split
  · exact enrichLoop_pmid o (cleanedDoi m) m 0 MAX_RETRIES
  · rfl



theorem mem_batch_enrich_iff (o : OAOracles) (ms : List PaperMetadata) (bs : Nat)
    (hne : (ms.filter doiTruthy).isEmpty = false) (x : PaperMetadata) :
    (x ∈ batch_enrich_with_openalex o ms bs) ↔
      ((∃ b ∈ chunksOf bs ((buildDoiMap (ms.filter doiTruthy)).map (fun e => e.1)),
          x ∈ processDoiBatch o (buildDoiMap (ms.filter doiTruthy)) b)
       ∨ x ∈ ms.filter (fun m => !doiTruthy m)) := by
  unfold batch_enrich_with_openalex
  simp only [hne, Bool.false_eq_true, if_false, List.mem_append,
    mem_foldl_append, List.not_mem_nil, false_or]

theorem lowerStr_oaKey (m : PaperMetadata) : lowerStr (oaKey m) = oaKey m :=
  lowerStr_idem (cleanedDoi m)

theorem mem_processDoiBatch (o : OAOracles) (ms : List PaperMetadata)
    (hdist : ((ms.filter doiTruthy).map oaKey).Nodup)
    (m : PaperMetadata) (hm : m ∈ ms.filter doiTruthy) (b : List String)
    (hk : oaKey m ∈ b) :
    ∃ m' ∈ processDoiBatch o (buildDoiMap (ms.filter doiTruthy)) b,
      m'.pmid = m.pmid := by
  have hgetm : alistGet (buildDoiMap (ms.filter doiTruthy)) (oaKey m) = some m := by
    rw [buildDoiMap_eq _ hdist]
    exact alistGet_keyed_map _ m hm hdist
  have hget' : alistGet (buildDoiMap (ms.filter doiTruthy)) (lowerStr (oaKey m)) = some m := by
    rw [lowerStr_oaKey]; exact hgetm
  cases hob : o.batch b with
  | ok rs =>
    unfold processDoiBatch
    rw [hob]
    by_cases hfound : oaKey m ∈ rs.map workKey
    · obtain ⟨w, hw, hkey⟩ := List.mem_map.mp hfound
      refine ⟨applyWork m w, List.mem_append_left _ ?_, applyWork_pmid m w⟩
      rw [processOkResults_eq]
      exact List.mem_filterMap.mpr ⟨w, hw, by rw [hkey, hgetm]; rfl⟩
    · refine ⟨m, List.mem_append_right _ ?_, rfl⟩
      apply List.mem_filterMap.mpr
      refine ⟨oaKey m, List.mem_filter.mpr ⟨hk, ?_⟩, hget'⟩
      rw [lowerStr_oaKey]
      simpa using hfound
  | rateLimited =>
    unfold processDoiBatch
    rw [hob]
    exact ⟨enrich_with_openalex o m,
      List.mem_map_of_mem _ (List.mem_filterMap.mpr ⟨oaKey m, hk, hget'⟩),
      enrich_with_openalex_pmid o m⟩
  | otherStatus =>
    unfold processDoiBatch
    rw [hob]
    exact ⟨enrich_with_openalex o m,
      List.mem_map_of_mem _ (List.mem_filterMap.mpr ⟨oaKey m, hk, hget'⟩),
      enrich_with_openalex_pmid o m⟩
  | exn =>
    unfold processDoiBatch
    rw [hob]
    exact ⟨enrich_with_openalex o m,
      List.mem_map_of_mem _ (List.mem_filterMap.mpr ⟨oaKey m, hk, hget'⟩),
      enrich_with_openalex_pmid o m⟩



/-- C3, amended: when the records carrying a DOI have pairwise-distinct
cleaned lower-cased DOIs, (1) every input record is represented in the
batched output by a record with the same primary identifier (no record is
dropped; on batch failure a record goes through the individual path, which
never changes the identifier), and (2) a record whose DOI batch succeeds
with a response that does not contain its DOI is appended to the output
UNCHANGED — it is not retried via the individual path. -/
theorem c3_batch_vs_individual (o : OAOracles) (ms : List PaperMetadata) (bs : Nat)
    (hbs : 0 < bs)
    (hdist : ((ms.filter doiTruthy).map oaKey).Nodup) :
    (∀ m ∈ ms, ∃ m' ∈ batch_enrich_with_openalex o ms bs, m'.pmid = m.pmid)
    ∧ (∀ m ∈ ms, ∀ b rs, doiTruthy m = true
        → b ∈ chunksOf bs ((buildDoiMap (ms.filter doiTruthy)).map (fun e => e.1))
        → oaKey m ∈ b → o.batch b = .ok rs → oaKey m ∉ rs.map workKey
        → m ∈ batch_enrich_with_openalex o ms bs) := by
  constructor
  · intro m hm
    by_cases hd : doiTruthy m
    · have hmwd : m ∈ ms.filter doiTruthy := List.mem_filter.mpr ⟨hm, hd⟩
      have hne : (ms.filter doiTruthy).isEmpty = false := by
        rcases hwd : ms.filter doiTruthy with _ | _
        · rw [hwd] at hmwd; simp at hmwd
        · rfl
      have hkin : oaKey m ∈ (buildDoiMap (ms.filter doiTruthy)).map (fun e => e.1) := by
        rw [buildDoiMap_eq _ hdist, List.map_map]
        exact List.mem_map_of_mem _ hmwd
      obtain ⟨b, hb, hkb⟩ := mem_of_mem_chunksOf bs hbs _ _ hkin
      obtain ⟨m', hm', hpm⟩ := mem_processDoiBatch o ms hdist m hmwd b hkb
      exact ⟨m', (mem_batch_enrich_iff o ms bs hne m').mpr (Or.inl ⟨b, hb, hm'⟩), hpm⟩
    · by_cases hwde : (ms.filter doiTruthy).isEmpty
      · refine ⟨m, ?_, rfl⟩
        unfold batch_enrich_with_openalex
        simp only [hwde, if_true]
        exact hm
      · refine ⟨m, (mem_batch_enrich_iff o ms bs (by simpa using hwde) m).mpr
          (Or.inr (List.mem_filter.mpr ⟨hm, by simp [hd]⟩)), rfl⟩
  · intro m hm b rs hd hb hk hob hnf
    have hmwd : m ∈ ms.filter doiTruthy := List.mem_filter.mpr ⟨hm, hd⟩
    have hne : (ms.filter doiTruthy).isEmpty = false := by
      rcases hwd : ms.filter doiTruthy with _ | _
      · rw [hwd] at hmwd; simp at hmwd
      · rfl
    have hgetm : alistGet (buildDoiMap (ms.filter doiTruthy)) (oaKey m) = some m := by
      rw [buildDoiMap_eq _ hdist]
      exact alistGet_keyed_map _ m hmwd hdist
    have hget' : alistGet (buildDoiMap (ms.filter doiTruthy)) (lowerStr (oaKey m)) = some m := by
      rw [lowerStr_oaKey]; exact hgetm
    apply (mem_batch_enrich_iff o ms bs hne m).mpr
    refine Or.inl ⟨b, hb, ?_⟩
    unfold processDoiBatch
    rw [hob]
    apply List.mem_append_right
    apply List.mem_filterMap.mpr
    refine ⟨oaKey m, List.mem_filter.mpr ⟨hk, ?_⟩, hget'⟩
    rw [lowerStr_oaKey]
    simpa using hnf

/-- C3, counterexample: two distinct records sharing one DOI collapse to
one dictionary entry, so the record with pmid "1" is silently dropped from
the batched output — refuting "every input record appears in the output". -/
theorem c3_counterexample :
    ([c3Meta1, c3Meta2].map (fun m => m.pmid)) = ["1", "2"]
    ∧ (batch_enrich_with_openalex c3Oracle [c3Meta1, c3Meta2] 50).map (fun m => m.pmid) = ["2"]
    ∧ (batch_enrich_with_openalex c3Oracle [c3Meta1, c3Meta2] 50).all
        (fun m => m.pmid ≠ "1") = true :=
  ⟨by decide, by decide, by decide⟩

/-- Witness for C3's amended theorem on a concrete record and oracle. -/
theorem c3_batch_vs_individual_witness :
    (0 < 50 ∧ (([c3Meta2].filter doiTruthy).map oaKey).Nodup)
    ∧ ((∀ m ∈ [c3Meta2], ∃ m' ∈ batch_enrich_with_openalex c3Oracle [c3Meta2] 50,
          m'.pmid = m.pmid)
       ∧ (∀ m ∈ [c3Meta2], ∀ b rs, doiTruthy m = true
            → b ∈ chunksOf 50 ((buildDoiMap ([c3Meta2].filter doiTruthy)).map (fun e => e.1))
            → oaKey m ∈ b → c3Oracle.batch b = .ok rs → oaKey m ∉ rs.map workKey
            → m ∈ batch_enrich_with_openalex c3Oracle [c3Meta2] 50)) :=
  ⟨⟨by decide, by decide⟩, c3_batch_vs_individual c3Oracle [c3Meta2] 50 (by decide) (by decide)⟩

end OpenAlexExtractor

theorem length_filterMap_eq_countP {α β : Type} (f : α → Option β) (l : List α) :
    (l.filterMap f).length = l.countP (fun x => (f x).isSome) := by
  induction l with
  | nil => rfl
  | cons x xs ih =>
    cases hx : f x <;> simp [List.filterMap_cons, hx, List.countP_cons, ih]

theorem foldl_append_length {α β : Type} (f : β → List α) (l : List β) (acc : List α) :
    (l.foldl (fun a b => a ++ f b) acc).length
      = acc.length + (l.map (fun b => (f b).length)).sum := by
  induction l generalizing acc with
  | nil => simp
  | cons b bs ih => simp [ih, List.length_append]; omega

theorem filter_mem_length_of_nodup (b ks : List String)
    (hb : b.Nodup) (hk : ks.Nodup) (hsub : ∀ x ∈ ks, x ∈ b) :
    (b.filter (fun d => d ∈ ks)).length = ks.length := by
  have hperm : List.Perm (b.filter (fun d => d ∈ ks)) ks := by
    rw [List.perm_ext_iff_of_nodup (hb.filter _) hk]
    intro a
    simp only [List.mem_filter, decide_eq_true_eq]
    exact ⟨fun h => h.2, fun h => ⟨hsub a h, h⟩⟩
  exact hperm.length_eq



theorem alistGet_isSome_iff_mem_keys {β : Type} (l : List (String × β)) (k : String) :
    (alistGet l k).isSome = true ↔ k ∈ l.map (fun e => e.1) := by
  induction l with
  | nil => simp [alistGet]
  | cons e es ih =>
    by_cases he : e.1 = k
    · simp [alistGet, he]
    · simp only [alistGet, he, if_false, List.map_cons, List.mem_cons, ih]
      constructor
      · exact Or.inr
      · rintro (h | h)
        · exact absurd h.symm he
        · exact h

namespace OpenAlexExtractor

open Database

theorem mapVals_length (doiMap : List (String × PaperMetadata)) (dois : List String)
    (h : ∀ d ∈ dois, (alistGet doiMap (lowerStr d)).isSome) :
    (mapVals doiMap dois).length = dois.length := by
  unfold mapVals
  rw [length_filterMap_eq_countP]
  exact List.countP_eq_length.mpr h

theorem processOkResults_length (doiMap : List (String × PaperMetadata)) (rs : List OAWork)
    (h : ∀ w ∈ rs, (alistGet doiMap (workKey w)).isSome) :
    (processOkResults doiMap rs).length = rs.length := by
  rw [processOkResults_eq, length_filterMap_eq_countP]
  apply List.countP_eq_length.mpr
  intro w hw
  simpa using h w hw

theorem processDoiBatch_length (o : OAOracles) (ms : List PaperMetadata)
    (hbatch : ∀ b rs, o.batch b = .ok rs →
      (rs.map workKey).Nodup ∧ ∀ w ∈ rs, workKey w ∈ b)
    (b : List String) (hbnd : b.Nodup)
    (hbsub : ∀ d ∈ b, d ∈ (buildDoiMap (ms.filter doiTruthy)).map (fun e => e.1))
    (hlow : ∀ d ∈ b, lowerStr d = d) :
    (processDoiBatch o (buildDoiMap (ms.filter doiTruthy)) b).length = b.length := by
  have hpresent : ∀ d ∈ b, (alistGet (buildDoiMap (ms.filter doiTruthy)) (lowerStr d)).isSome := by
    intro d hd
    rw [hlow d hd, alistGet_isSome_iff_mem_keys]
    exact hbsub d hd
  cases hob : o.batch b with
  | ok rs =>
    obtain ⟨hrsnd, hrsb⟩ := hbatch b rs hob
    unfold processDoiBatch
    rw [hob, List.length_append]
    have hmlen : (processOkResults (buildDoiMap (ms.filter doiTruthy)) rs).length = rs.length := by
      apply processOkResults_length
      intro w hw
      have := hpresent (workKey w) (hrsb w hw)
      rwa [hlow (workKey w) (hrsb w hw)] at this
    -- the unmatched part
    have hfc : b.filter (fun d => !(rs.map workKey).contains (lowerStr d))
        = b.filter (fun d => !(d ∈ rs.map workKey)) := by
      apply List.filter_congr
      intro d hd
      rw [hlow d hd]
      simp [List.elem_eq_mem]
    have hsplit := List.length_eq_length_filter_add (fun d => (d ∈ rs.map workKey : Bool)) (l := b)
    have hinlen : (b.filter (fun d => (d ∈ rs.map workKey : Bool))).length = rs.length := by
      rw [filter_mem_length_of_nodup b (rs.map workKey) hbnd hrsnd (fun x hx => by
        obtain ⟨w, hw, rfl⟩ := List.mem_map.mp hx
        exact hrsb w hw)]
      simp
    have hulen : (mapVals (buildDoiMap (ms.filter doiTruthy))
        (b.filter (fun d => !(rs.map workKey).contains (lowerStr d)))).length
        = b.length - rs.length := by
      rw [mapVals_length _ _ (fun d hd => hpresent d (List.mem_of_mem_filter hd)), hfc]
      have : (b.filter (fun d => !(d ∈ rs.map workKey))).length
          = b.length - (b.filter (fun d => (d ∈ rs.map workKey : Bool))).length := by
        omega
      rw [this, hinlen]
    rw [hmlen, hulen]
    omega
  | rateLimited =>
    unfold processDoiBatch
    rw [hob]
    rw [List.length_map, mapVals_length _ _ hpresent]
  | otherStatus =>
    unfold processDoiBatch
    rw [hob]
    rw [List.length_map, mapVals_length _ _ hpresent]
  | exn =>
    unfold processDoiBatch
    rw [hob]
    rw [List.length_map, mapVals_length _ _ hpresent]

theorem batch_enrich_length (o : OAOracles) (ms : List PaperMetadata) (bs : Nat)
    (hbs : 0 < bs) (hdist : ((ms.filter doiTruthy).map oaKey).Nodup)
    (hbatch : ∀ b rs, o.batch b = .ok rs →
      (rs.map workKey).Nodup ∧ ∀ w ∈ rs, workKey w ∈ b) :
    (batch_enrich_with_openalex o ms bs).length = ms.length := by
  by_cases hne : (ms.filter doiTruthy).isEmpty
  · unfold batch_enrich_with_openalex
    simp [hne]
  · have hkeysform : (buildDoiMap (ms.filter doiTruthy)).map (fun e => e.1)
        = (ms.filter doiTruthy).map oaKey := by
      rw [buildDoiMap_eq _ hdist, List.map_map]
      rfl
    have hkeynodup : ((buildDoiMap (ms.filter doiTruthy)).map (fun e => e.1)).Nodup := by
      rw [hkeysform]; exact hdist
    have hlower : ∀ d ∈ (buildDoiMap (ms.filter doiTruthy)).map (fun e => e.1),
        lowerStr d = d := by
      rw [hkeysform]
      intro d hd
      obtain ⟨m', _, rfl⟩ := List.mem_map.mp hd
      exact lowerStr_oaKey m'
    have hchunk : ∀ b ∈ chunksOf bs ((buildDoiMap (ms.filter doiTruthy)).map (fun e => e.1)),
        (processDoiBatch o (buildDoiMap (ms.filter doiTruthy)) b).length = b.length := by
      intro b hb
      have hbsl := chunksOf_sublist bs _ b hb
      exact processDoiBatch_length o ms hbatch b (hbsl.nodup hkeynodup)
        (fun d hd => hbsl.subset hd) (fun d hd => hlower d (hbsl.subset hd))
    show (if (ms.filter doiTruthy).isEmpty then ms
      else ((chunksOf bs ((buildDoiMap (ms.filter doiTruthy)).map (fun e => e.1))).foldl
          (fun acc b => acc ++ processDoiBatch o (buildDoiMap (ms.filter doiTruthy)) b) []
        ++ ms.filter (fun m => !doiTruthy m))).length = ms.length
    rw [if_neg (by simpa using hne), List.length_append, foldl_append_length]
    have hsum : ((chunksOf bs ((buildDoiMap (ms.filter doiTruthy)).map (fun e => e.1))).map
          (fun b => (processDoiBatch o (buildDoiMap (ms.filter doiTruthy)) b).length)).sum
        = ((buildDoiMap (ms.filter doiTruthy)).map (fun e => e.1)).length := by
      rw [List.map_congr_left hchunk]
      rw [← List.length_flatten, chunksOf_join bs hbs]
    rw [hsum]
    have hpart := List.length_eq_length_filter_add (l := ms) doiTruthy
    rw [hkeysform, List.length_map]
    simp only [List.length_nil, Nat.zero_add]
    omega

end OpenAlexExtractor

namespace Orchestrator

open Database OpenAlexExtractor

theorem classifyBatch_fold (db : PaperDB) (batch : List String) (acc : Classified) :
    ((batch.foldl (classifyStep db true) acc).papers_to_enrich = acc.papers_to_enrich)
    ∧ ((batch.foldl (classifyStep db true) acc).pmids_to_process.length
        + (batch.foldl (classifyStep db true) acc).skipped
        = acc.pmids_to_process.length + acc.skipped + batch.length) := by
  induction batch generalizing acc with
  | nil => simp
  | cons pmid rest ih =>
    simp only [List.foldl_cons]
    have hstep : (classifyStep db true acc pmid).papers_to_enrich = acc.papers_to_enrich
        ∧ (classifyStep db true acc pmid).pmids_to_process.length
            + (classifyStep db true acc pmid).skipped
          = acc.pmids_to_process.length + acc.skipped + 1 := by
      unfold classifyStep
      cases hpe : (paper_needs_enrichment db pmid).2 with
      | none => simp [hpe]; omega
      | some p => simp [hpe]; omega
    obtain ⟨h1, h2⟩ := ih (classifyStep db true acc pmid)
    refine ⟨h1.trans hstep.1, ?_⟩
    rw [h2, hstep.2]
    simp only [List.length_cons]
    omega

theorem classifyBatch_skip (db : PaperDB) (batch : List String) :
    (classifyBatch db true batch).papers_to_enrich = []
    ∧ (classifyBatch db true batch).pmids_to_process.length
        + (classifyBatch db true batch).skipped = batch.length := by
  obtain ⟨h1, h2⟩ := classifyBatch_fold db batch {}
  exact ⟨h1, by simpa using h2⟩

theorem alistGet_replace {β : Type} (A : List (String × β)) (k : String) (v : β) (q : String) :
    alistGet (A.map (fun e => if e.1 = k then (k, v) else e)) q
      = if q = k then (alistGet A k).map (fun _ => v) else alistGet A q := by
  induction A with
  | nil => by_cases hq : q = k <;> simp [alistGet, hq]
  | cons e es ih =>
    by_cases he : e.1 = k
    · by_cases hq : q = k
      · subst hq; simp [alistGet, he]
      · have : ¬ k = q := fun hh => hq hh.symm
        simp [alistGet, he, hq, this, ih]
    · by_cases hq : q = k
      · subst hq
        have : ¬ e.1 = q := he
        simp [alistGet, this, ih]
      · by_cases heq : e.1 = q <;> simp [alistGet, he, hq, heq, ih]

theorem updateMap_single (A : List (String × PaperMetadata)) (k : String)
    (v : PaperMetadata) (q : String) :
    alistGet (updateMap A [(k, v)]) q = if q = k then some v else alistGet A q := by
  unfold updateMap
  simp only [List.foldl_cons, List.foldl_nil]
  by_cases hs : (alistGet A k).isSome
  · obtain ⟨w, hw⟩ := Option.isSome_iff_exists.mp hs
    simp only [hs, if_true]
    rw [alistGet_replace]
    by_cases hq : q = k <;> simp [hq, hw]
  · have hnone : alistGet A k = none := Option.not_isSome_iff_eq_none.mp hs
    simp only [hs, Bool.false_eq_true, if_false]
    rw [alistGet_append]
    by_cases hq : q = k
    · subst hq; simp [hnone, alistGet]
    · cases hAq : alistGet A q
      · simp [hq, alistGet_singleton_ne _ _ _ hq]
      · simp [hq]

theorem retry_fold (o : BatchOracles) (ms : List String) (st : MetaStage) :
    ((ms.foldl (retryStep o) st).failed
      = st.failed + (ms.filter (fun p => (o.metaIndiv p).isNone)).length)
    ∧ ∀ q, (mlookup (ms.foldl (retryStep o) st).all_metadata q).isSome
        = ((mlookup st.all_metadata q).isSome
           || (decide (q ∈ ms) && (o.metaIndiv q).isSome)) := by
  induction ms generalizing st with
  | nil => simp
  | cons p rest ih =>
    simp only [List.foldl_cons]
    have hstep : ∀ q, (mlookup (retryStep o st p).all_metadata q).isSome
        = ((mlookup st.all_metadata q).isSome || (decide (q = p) && (o.metaIndiv q).isSome)) := by
      intro q
      unfold retryStep
      cases hi : o.metaIndiv p with
      | none =>
        by_cases hq : q = p
        · subst hq; simp [hi]
        · simp [hq]
      | some md =>
        show (mlookup (updateMap st.all_metadata [(p, md)]) q).isSome = _
        unfold mlookup
        rw [updateMap_single]
        by_cases hq : q = p
        · subst hq; simp [hi]
        · simp [hq]
    have hfail : (retryStep o st p).failed
        = st.failed + (if (o.metaIndiv p).isNone then 1 else 0) := by
      unfold retryStep
      cases hi : o.metaIndiv p <;> simp [hi]
    obtain ⟨ihf, ihl⟩ := ih (retryStep o st p)
    constructor
    · rw [ihf, hfail, List.filter_cons]
      by_cases hi : (o.metaIndiv p).isNone <;> simp [hi] <;> omega
    · intro q
      rw [ihl q, hstep q]
      by_cases hq : q = p
      · subst hq; simp; cases (o.metaIndiv q).isSome <;> simp
      · simp [hq]

theorem meta_stage_count (o : BatchOracles) (P : List String)
    (m0 : List (String × PaperMetadata)) :
    (retryMissing o P m0).failed
      + (P.filter (fun p => (mlookup (retryMissing o P m0).all_metadata p).isSome)).length
      = P.length := by
  unfold retryMissing
  obtain ⟨hf, hl⟩ := retry_fold o (P.filter (fun p => (alistGet m0 p).isNone)) ⟨m0, 0⟩
  dsimp only at hf hl
  rw [hf]
  have hpred : ∀ p ∈ P,
      (mlookup ((P.filter (fun p => (alistGet m0 p).isNone)).foldl (retryStep o)
          ⟨m0, 0⟩).all_metadata p).isSome
        = !((alistGet m0 p).isNone && (o.metaIndiv p).isNone) := by
    intro p hp
    rw [hl p]
    show ((alistGet m0 p).isSome || _) = _
    cases hx : alistGet m0 p with
    | none =>
      have hmem : p ∈ P.filter (fun q => (alistGet m0 q).isNone) :=
        List.mem_filter.mpr ⟨hp, by simp [hx]⟩
      cases hy : o.metaIndiv p <;> simp [hx, hy, hmem]
    | some v => simp [hx]
  rw [List.filter_congr hpred]
  have hsplit := List.length_eq_length_filter_add
    (l := P) (fun p => !((alistGet m0 p).isNone && (o.metaIndiv p).isNone))
  have hff : (P.filter (fun p => (alistGet m0 p).isNone)).filter
        (fun p => (o.metaIndiv p).isNone)
      = P.filter (fun p => (alistGet m0 p).isNone && (o.metaIndiv p).isNone) := by
    rw [List.filter_filter]
    apply List.filter_congr
    intro p _
    exact Bool.and_comm _ _
  have hnn : P.filter (fun x => !(!((alistGet m0 x).isNone && (o.metaIndiv x).isNone)))
      = P.filter (fun p => (alistGet m0 p).isNone && (o.metaIndiv p).isNone) := by
    apply List.filter_congr
    intro p _
    simp
  rw [hff]
  rw [hnn] at hsplit
  omega

theorem wp_wo_length (am : List (String × PaperMetadata)) (P : List String) :
    (papersWithPmcid am P).length + (papersWithoutPmcid am P).length
      = (P.filter (fun p => (mlookup am p).isSome)).length := by
  induction P with
  | nil => rfl
  | cons p ps ih =>
    unfold papersWithPmcid papersWithoutPmcid at ih ⊢
    rw [List.filterMap_cons, List.filterMap_cons, List.filter_cons]
    cases hm : mlookup am p with
    | none => simpa [hm] using ih
    | some md =>
      by_cases ht : optStrTruthy md.pmcid
      · simp [hm, ht]
        omega
      · simp [hm, ht]
        omega

theorem saveStep_fields (o : BatchOracles) (t : SaveTally) (m : PaperMetadata) :
    ((saveStep o t m).processed = t.processed + (if o.insertOk m then 1 else 0))
    ∧ ((saveStep o t m).failed = t.failed + (if o.insertOk m then 0 else 1))
    ∧ ((saveStep o t m).failed_dois.length
        ≤ t.failed_dois.length + (if o.insertOk m then 1 else 0)) := by
  unfold saveStep
  by_cases hi : o.insertOk m
  · simp only [hi, if_true]
    split_ifs <;> simp
  · simp [hi]

theorem saveAll_fold (o : BatchOracles) (papers : List PaperMetadata) :
    ∀ t : SaveTally,
      ((papers.foldl (saveStep o) t).processed + (papers.foldl (saveStep o) t).failed
        = t.processed + t.failed + papers.length)
      ∧ ((papers.foldl (saveStep o) t).failed_dois.length + t.processed
          ≤ t.failed_dois.length + (papers.foldl (saveStep o) t).processed) := by
  induction papers with
  | nil => intro t; simp
  | cons m rest ih =>
    intro t
    simp only [List.foldl_cons, List.length_cons]
    obtain ⟨hs1, hs2, hs3⟩ := saveStep_fields o t m
    obtain ⟨ih1, ih2⟩ := ih (saveStep o t m)
    constructor
    · rw [ih1, hs1, hs2]
      by_cases hi : o.insertOk m <;> simp [hi] <;> omega
    · rw [hs1] at ih2
      by_cases hi : o.insertOk m <;> simp [hi] at hs3 ih2 ⊢ <;> omega

theorem saveAll_counts (o : BatchOracles) (papers : List PaperMetadata) :
    ((saveAll o papers).processed + (saveAll o papers).failed = papers.length)
    ∧ ((saveAll o papers).failed_dois.length ≤ (saveAll o papers).processed) := by
  obtain ⟨h1, h2⟩ := saveAll_fold o papers {}
  exact ⟨by simpa using h1, by simpa using h2⟩

theorem savedPapers_length (o : BatchOracles) (db : PaperDB) (batch : List String)
    (qid : Option Int) :
    (savedPapers o db batch qid true).length
      = ((classifyBatch db true batch).pmids_to_process.filter
          (fun p => (mlookup (retryMissing o (classifyBatch db true batch).pmids_to_process
            (fetchAllMetadata o (classifyBatch db true batch).pmids_to_process)).all_metadata
              p).isSome)).length := by
  unfold savedPapers
  have hassign : ∀ l : List PaperMetadata, (assignQueryId qid l).length = l.length := by
    intro l
    unfold assignQueryId
    cases qid <;> simp
  rw [hassign, List.length_append, List.length_map, List.length_map]
  exact wp_wo_length _ _

/-- C5, amended: with `skip_existing = True` (the default run mode), when the
fetched records carry pairwise-distinct cleaned DOIs and the batched
enrichment endpoint answers well-formedly (distinct response DOIs drawn from
the requested batch), the counters `processed`, `failed` and `skipped` of
`process_batch` partition the input identifiers exactly; the "incomplete"
(no-full-text) side-table additions are NOT a separate category — they are
bounded by, and overlap with, `processed`.  (With `skip_existing = False`,
enrichment-path identifiers are counted in none of the four categories; see
the counterexample.) -/
theorem c5_partition (o : BatchOracles) (db : PaperDB) (batch : List String)
    (qid : Option Int)
    (hdist : (((savedPapers o db batch qid true).filter doiTruthy).map oaKey).Nodup)
    (hbatch : ∀ b rs, o.oa.batch b = .ok rs →
        (rs.map workKey).Nodup ∧ ∀ w ∈ rs, workKey w ∈ b) :
    ((process_batch o db batch qid true).processed
      + (process_batch o db batch qid true).failed
      + (process_batch o db batch qid true).skipped = batch.length)
    ∧ ((process_batch o db batch qid true).failed_dois.length
        ≤ (process_batch o db batch qid true).processed) := by
  obtain ⟨henr, hcls⟩ := classifyBatch_skip db batch
  unfold process_batch
  by_cases hemp : ((classifyBatch db true batch).pmids_to_process.isEmpty
        && (classifyBatch db true batch).papers_to_enrich.isEmpty) = true
  · simp only [hemp, if_true]
    have hP0 : (classifyBatch db true batch).pmids_to_process.length = 0 := by
      have := (Bool.and_eq_true _ _).mp hemp
      simpa [List.isEmpty_iff] using congrArg List.length (List.isEmpty_iff.mp this.1)
    exact ⟨by omega, by simp⟩
  · simp only [hemp, Bool.false_eq_true, if_false]
    obtain ⟨hsave1, hsave2⟩ := saveAll_counts o (batch_enrich_with_openalex o.oa
      (savedPapers o db batch qid true) OPENALEX_BATCH_SIZE)
    have hlen := batch_enrich_length o.oa (savedPapers o db batch qid true)
      OPENALEX_BATCH_SIZE (by decide) hdist hbatch
    have hsp := savedPapers_length o db batch qid
    have hms := meta_stage_count o (classifyBatch db true batch).pmids_to_process
      (fetchAllMetadata o (classifyBatch db true batch).pmids_to_process)
    constructor
    · omega
    · omega

/-- C5, counterexample: with `skip_existing = False`, an identifier whose
record exists but needs enrichment lands in NONE of the claimed categories —
all four counters (processed, skipped, failed, and the incomplete side-table)
stay empty although one identifier was given. -/
theorem c5_counterexample :
    (process_batch c5Oracle c5DB ["1"] none false).processed
      + (process_batch c5Oracle c5DB ["1"] none false).skipped
      + (process_batch c5Oracle c5DB ["1"] none false).failed
      + (process_batch c5Oracle c5DB ["1"] none false).failed_dois.length
      = 0
    ∧ (["1"] : List String).length = 1 := by
  constructor
  · decide
  · rfl

/-- Witness for C5's amended theorem on a one-identifier batch against an
empty store. -/
theorem c5_partition_witness :
    ((((savedPapers c5Oracle [] ["7"] none true).filter doiTruthy).map oaKey).Nodup
     ∧ ∀ b rs, c5Oracle.oa.batch b = .ok rs →
        (rs.map workKey).Nodup ∧ ∀ w ∈ rs, workKey w ∈ b)
    ∧ (((process_batch c5Oracle [] ["7"] none true).processed
        + (process_batch c5Oracle [] ["7"] none true).failed
        + (process_batch c5Oracle [] ["7"] none true).skipped = (["7"] : List String).length)
       ∧ ((process_batch c5Oracle [] ["7"] none true).failed_dois.length
          ≤ (process_batch c5Oracle [] ["7"] none true).processed)) := by
  have hb : ∀ b rs, c5Oracle.oa.batch b = BatchResp.ok rs →
      (rs.map workKey).Nodup ∧ ∀ w ∈ rs, workKey w ∈ b := by
    intro b rs h
    cases h
    exact ⟨List.nodup_nil, by intro w hw; simp at hw⟩
  exact ⟨⟨by decide, hb⟩, c5_partition c5Oracle [] ["7"] none (by decide) hb⟩

end Orchestrator

end DownloadAgent